import Mathlib

set_option maxHeartbeats 1000000
set_option maxRecDepth 8192

/-
Shallow embedding of the dynamic-library lifecycle engine of `dlopen-rs`
(files `src/api/dlopen.rs` and `src/core_impl/register.rs`).

Strings are embedded as `String`/`List Char`; the external collaborators
(the ELF object loader, the ld.so.cache parser, the relocator and the Arc
reference counter) are oracles supplied through an `Env`/`DropEnv` record,
exactly at the narrow interfaces the source consumes them through.
-/

/-- Splits a character list at every occurrence of `c`, like Rust `str::split`:
the result always has one more piece than there are separators, and splitting
the empty string yields one empty piece. -/
def splitOnChar (c : Char) : List Char → List (List Char)
  | [] => [[]]
  | x :: xs =>
    match splitOnChar c xs with
    | [] => [[]]
    | y :: ys => if x = c then [] :: y :: ys else (x :: y) :: ys

/-- Rust `str::rsplit_once(c)`: splits around the last occurrence of `c`,
returning `none` when `c` does not occur. -/
def rsplit_once (c : Char) : List Char → Option (List Char × List Char)
  | [] => none
  | x :: xs =>
    match rsplit_once c xs with
    | some (pre, post) => some (x :: pre, post)
    | none => if x = c then some ([], xs) else none

/-- Structural worker for `replaceAll`: the fuel only bounds the recursion
depth (each step consumes at least one character, so `l.length` is enough). -/
def replaceAllFuel (pat rep : List Char) : Nat → List Char → List Char
  | 0, l => l
  | fuel + 1, l =>
    match l with
    | [] => []
    | x :: xs =>
      if pat ≠ [] ∧ pat.isPrefixOf (x :: xs) then
        rep ++ replaceAllFuel pat rep fuel ((x :: xs).drop pat.length)
      else
        x :: replaceAllFuel pat rep fuel xs

/-- Rust `str::replace(pat, rep)` on character lists: non-overlapping
left-to-right replacement of every occurrence of `pat`. -/
def replaceAll (pat rep l : List Char) : List Char :=
  replaceAllFuel pat rep l.length l

/-- Rust `str::contains(pat)` for a literal pattern: `pat` occurs as a
contiguous substring. -/
def listIsInfix (pat : List Char) : List Char → Bool
  | [] => pat.isEmpty
  | x :: xs => pat.isPrefixOf (x :: xs) || listIsInfix pat xs

/-- Substring containment on `String`, as used by `register` for the
well-known runtime library patterns. -/
def strContains (s pat : String) : Bool :=
  listIsInfix pat.toList s.toList

/-- The short-name computation of `OpenContext::try_existing`:
`path.rsplit_once('/').map_or(path, |(_, name)| name)`. -/
def shortname_of (path : String) : String :=
  match rsplit_once '/' path.toList with
  | some (_, name) => String.mk name
  | none => path

/-- `ElfPath::join`: appends a file name, inserting a `/` separator when the
path is non-empty and does not already end with one. -/
def path_join (p file_name : String) : String :=
  if p.toList ≠ [] ∧ p.toList.getLast? ≠ some '/' then
    String.mk (p.toList ++ '/' :: file_name.toList)
  else
    String.mk (p.toList ++ file_name.toList)

/-- `parse_path_list`: splits a colon-separated path list, dropping empty
segments. -/
def parse_path_list (s : String) : List String :=
  ((splitOnChar ':' s.toList).filter (fun t => t ≠ [])).map String.mk

/-- `fixup_rpath`: `$ORIGIN` substitution for a DT_RPATH/DT_RUNPATH string.
A string without `$` is split verbatim; if any `$`-introduced segment does not
begin with `ORIGIN` or `{ORIGIN}` the result is empty; otherwise every
`$ORIGIN` is replaced by the directory portion of the requesting library's
path (`.` when the path has no `/`) and the result is split on `:`. -/
def fixup_rpath (lib_path : String) (rpath : String) : List String :=
  if rpath.toList.contains '$' then
    if ((splitOnChar '$' rpath.toList).drop 1).any
        (fun s => !("ORIGIN".toList.isPrefixOf s) && !("{ORIGIN}".toList.isPrefixOf s)) then
      []
    else
      let dir : List Char :=
        match rsplit_once '/' lib_path.toList with
        | some (pre, _) => pre
        | none => ['.']
      parse_path_list (String.mk (replaceAll "$ORIGIN".toList dir rpath.toList))
  else parse_path_list rpath

/-- Modelled from the spec: the `OpenFlags` bitflags type (its declaration is
not among the provided sources; section 6 of the spec lists the flag set
`LOCAL/LAZY/NOW/NOLOAD/DEEPBIND/GLOBAL/NODELETE/NOT_REGISTER`, `LOCAL` being
the absence of `GLOBAL`). A bitflags value is a finite set of flags, so it is
embedded as one Boolean per flag; `|`, `&` and `difference` are the pointwise
Boolean operations and `contains(mask)` is pointwise implication of the mask. -/
structure OpenFlags where
  rtld_lazy : Bool := false
  rtld_now : Bool := false
  rtld_noload : Bool := false
  rtld_deepbind : Bool := false
  rtld_global : Bool := false
  rtld_nodelete : Bool := false
  custom_not_register : Bool := false
  deriving DecidableEq, Repr

/-- Bitwise `|` of two `OpenFlags` values. -/
def OpenFlags.orF (a b : OpenFlags) : OpenFlags where
  rtld_lazy := a.rtld_lazy || b.rtld_lazy
  rtld_now := a.rtld_now || b.rtld_now
  rtld_noload := a.rtld_noload || b.rtld_noload
  rtld_deepbind := a.rtld_deepbind || b.rtld_deepbind
  rtld_global := a.rtld_global || b.rtld_global
  rtld_nodelete := a.rtld_nodelete || b.rtld_nodelete
  custom_not_register := a.custom_not_register || b.custom_not_register

/-- Bitwise `&` of two `OpenFlags` values. -/
def OpenFlags.andF (a b : OpenFlags) : OpenFlags where
  rtld_lazy := a.rtld_lazy && b.rtld_lazy
  rtld_now := a.rtld_now && b.rtld_now
  rtld_noload := a.rtld_noload && b.rtld_noload
  rtld_deepbind := a.rtld_deepbind && b.rtld_deepbind
  rtld_global := a.rtld_global && b.rtld_global
  rtld_nodelete := a.rtld_nodelete && b.rtld_nodelete
  custom_not_register := a.custom_not_register && b.custom_not_register

/-- `bitflags` `difference`: the flags of `a` that are not in `b`. -/
def OpenFlags.diffF (a b : OpenFlags) : OpenFlags where
  rtld_lazy := a.rtld_lazy && !b.rtld_lazy
  rtld_now := a.rtld_now && !b.rtld_now
  rtld_noload := a.rtld_noload && !b.rtld_noload
  rtld_deepbind := a.rtld_deepbind && !b.rtld_deepbind
  rtld_global := a.rtld_global && !b.rtld_global
  rtld_nodelete := a.rtld_nodelete && !b.rtld_nodelete
  custom_not_register := a.custom_not_register && !b.custom_not_register

/-- The mask `RTLD_GLOBAL | RTLD_NODELETE` used by the promotion paths. -/
def gnMask : OpenFlags := { rtld_global := true, rtld_nodelete := true }

/-- The observable data of a loaded, unrelocated object produced by the
external ELF loader collaborator (`ElfDylib`/`LoadedDylib`): full path,
registry short name, `DT_NEEDED` list, raw RPATH/RUNPATH strings, the lazy
hint derived from `DT_FLAGS_1`, and the mapped range. -/
structure LibInfo where
  name : String
  shortname : String
  needed_libs : List String
  rpath : Option String
  runpath : Option String
  is_lazy : Bool
  base : Nat
  mapped_len : Nat
  deriving DecidableEq, Repr

instance : Inhabited LibInfo :=
  ⟨{ name := "", shortname := "", needed_libs := [], rpath := none, runpath := none,
     is_lazy := false, base := 0, mapped_len := 0 }⟩

/-- The error values `dlopen` can propagate: `find_lib_error` messages,
`elf_loader` failures from `ElfLibrary::from_file`, and relocation failures. -/
inductive DlError where
  | find_lib (msg : String)
  | load_fail (path : String)
  | relocate_fail (name : String)
  deriving DecidableEq, Repr

/-- `DylibState`: the compact `u8` lifecycle state. Values in `[0, 254)` mean
a newly loaded library with that batch index, `254` means relocating and
`255` means relocated. -/
structure DylibState where
  val : Nat
  deriving DecidableEq, Repr

/-- `DylibState::is_relocated`. -/
def DylibState.is_relocated (s : DylibState) : Bool := s.val = 255

/-- `DylibState::get_new_idx`. -/
def DylibState.get_new_idx (s : DylibState) : Option Nat :=
  if s.val ≥ 254 then none else some s.val

/-- `DylibState::set_relocated`. -/
def DylibState.set_relocated : DylibState := ⟨255⟩

/-- `DylibState::set_relocating`. -/
def DylibState.set_relocating : DylibState := ⟨254⟩

/-- `DylibState::set_new_idx(idx)`, taking the already-`u8`-cast index:
`assert!(idx < Self::RELOCATING)` fails — a panic, embedded as `none` —
when the index reaches 254. -/
def DylibState.set_new_idx (idx : Nat) : Option DylibState :=
  if idx < 254 then some ⟨idx⟩ else none

/-- `GlobalDylib`: a registry entry — the loaded object, its accumulated open
flags, its searchlist (`deps`, set once computed) and its lifecycle state. -/
structure GlobalDylib where
  inner : LibInfo
  flags : OpenFlags
  deps : Option (List LibInfo)
  state : DylibState
  deriving DecidableEq, Repr

/-- `ElfLibrary`: the user-visible handle returned by `dlopen`. -/
structure ElfLibrary where
  inner : LibInfo
  flags : OpenFlags
  deps : Option (List LibInfo)
  deriving DecidableEq, Repr

/-- `IndexMap` lookup: the value stored at the first (only) occurrence of the
key. -/
def imGet {α : Type} (m : List (String × α)) (k : String) : Option α :=
  (m.find? (fun p => p.1 = k)).map (fun p => p.2)

/-- `IndexMap::insert`: replace in place when the key is present (keeping its
position), append otherwise. -/
def imInsert {α : Type} : List (String × α) → String → α → List (String × α)
  | [], k, v => [(k, v)]
  | p :: rest, k, v => if p.1 = k then (k, v) :: rest else p :: imInsert rest k v

/-- In-place update of the value at a key (`get_mut` followed by mutation);
no-op when the key is absent. -/
def imModify {α : Type} (m : List (String × α)) (k : String) (f : α → α) : List (String × α) :=
  m.map (fun p => if p.1 = k then (p.1, f p.2) else p)

/-- `IndexMap::shift_remove`: removes the key, preserving the order of the
remaining entries. -/
def imShiftRemove {α : Type} (m : List (String × α)) (k : String) : List (String × α) :=
  m.filter (fun p => p.1 ≠ k)

/-- `Manager`: the process-wide registry — the insertion-ordered `all` and
`global` maps plus the `adds`/`subs` epoch counters. -/
structure Manager where
  all : List (String × GlobalDylib)
  global : List (String × LibInfo)
  adds : Nat
  subs : Nat
  deriving DecidableEq, Repr

/-- The oracle environment for a `dlopen` run: the external ELF loader
(`ElfLibrary::from_file`), the parsed `LD_LIBRARY_PATH`, the ld.so.cache
lookup, the `LD_BIND_NOW` environment flag and the external relocator's
verdict per library. -/
structure Env where
  load_file : String → Option LibInfo
  ld_library_path : List String
  ld_cache : String → Option String
  ld_bind_now : Bool
  reloc_ok : String → Bool

/-- The `DEFAULT_PATH` static: the default system search directories, in
declaration order. -/
def DEFAULT_PATH : List String :=
  ["/lib", "/usr/lib", "/lib64", "/usr/lib64",
   "/lib/x86_64-linux-gnu", "/usr/lib/x86_64-linux-gnu",
   "/lib/aarch64-linux-gnu", "/usr/lib/aarch64-linux-gnu",
   "/lib/riscv64-linux-gnu", "/usr/lib/riscv64-linux-gnu",
   "/usr/lib/aarch64-linux-gnu", "/usr/aarch64-linux-gnu/lib"]

/-- One search loop of `find_library`: try `path.join(lib_name)` for each
entry in order, stopping at the first candidate the callback accepts. -/
def try_paths (ok : String → Bool) (lib_name : String) : List String → Option String
  | [] => none
  | p :: rest =>
    let file_path := path_join p lib_name
    if ok file_path then some file_path else try_paths ok lib_name rest

/-- `find_library`: tries DT_RPATH (only when DT_RUNPATH is empty), then
`LD_LIBRARY_PATH`, then DT_RUNPATH, then the ld.so.cache hit, then
`DEFAULT_PATH`; when everything fails it returns the `find_lib_error`
`"can not find file: {lib_name}"`. The callback `ok` is the success test of
the caller's load attempt on a candidate path. -/
def find_library (env : Env) (rpath runpath : List String) (lib_name : String)
    (ok : String → Bool) : Except DlError String :=
  match (if runpath.isEmpty then try_paths ok lib_name rpath else none) with
  | some p => .ok p
  | none =>
  match try_paths ok lib_name env.ld_library_path with
  | some p => .ok p
  | none =>
  match try_paths ok lib_name runpath with
  | some p => .ok p
  | none =>
  match (match env.ld_cache lib_name with
         | some path => if ok path then some path else none
         | none => none) with
  | some p => .ok p
  | none =>
  match try_paths ok lib_name DEFAULT_PATH with
  | some p => .ok p
  | none => .error (.find_lib ("can not find file: " ++ lib_name))

/-- The flat candidate sequence `find_library` works through: parent RPATH
(suppressed by a non-empty RUNPATH), `LD_LIBRARY_PATH`, parent RUNPATH, the
cache hit, and the default system paths. -/
def search_candidates (env : Env) (rpath runpath : List String) (lib_name : String) :
    List String :=
  (if runpath.isEmpty then rpath.map (fun p => path_join p lib_name) else [])
    ++ env.ld_library_path.map (fun p => path_join p lib_name)
    ++ runpath.map (fun p => path_join p lib_name)
    ++ (match env.ld_cache lib_name with
        | some path => [path]
        | none => [])
    ++ DEFAULT_PATH.map (fun p => path_join p lib_name)

/-- The well-known runtime library name fragments that `register` implicitly
promotes to `RTLD_NODELETE` (substring tests, in source order). -/
def runtime_patterns : List String :=
  ["libc.so", "libpthread.so", "libdl.so", "libgcc_s.so", "ld-linux"]

/-- `register`: inserts a loaded object into the registry. Skipped entirely
under `CUSTOM_NOT_REGISTER`; applies the implicit `NODELETE` promotion for
well-known runtime names; appends to `all`, bumps `adds`, and also inserts
into `global` when the flags contain `RTLD_GLOBAL` or the object is the main
executable (empty full name). -/
def register (lib : LibInfo) (flags : OpenFlags) (manager : Manager)
    (state : DylibState) : Manager :=
  if flags.custom_not_register then manager
  else
    let is_main := lib.name = ""
    let shortname := lib.shortname
    let flags :=
      if runtime_patterns.any (fun pat => strContains shortname pat) then
        { flags with rtld_nodelete := true }
      else flags
    let manager :=
      { manager with
        all := imInsert manager.all shortname ⟨lib, flags, none, state⟩,
        adds := manager.adds + 1 }
    if flags.rtld_global || is_main then
      { manager with global := imInsert manager.global shortname lib }
    else manager


/-- Outcomes of (parts of) a `dlopen` transaction: success, a propagated
error value, a Rust panic (a failed `assert!` or `unwrap`; the unwind still
runs the `OpenContext` drop), the unbounded dedup spin wait on a library
another thread is loading, and exhaustion of the embedding's loop fuel. -/
inductive DlOutcome (α : Type) where
  | ok (v : α)
  | err (e : DlError)
  | panic
  | spin
  | fuelOut
  deriving DecidableEq, Repr

/-- True exactly on the `err` constructor. -/
def DlOutcome.isErr {α : Type} : DlOutcome α → Bool
  | .err _ => true
  | _ => false

/-- True exactly on the `ok` constructor. -/
def DlOutcome.isOk {α : Type} : DlOutcome α → Bool
  | .ok _ => true
  | _ => false

/-- Transports a non-`ok` outcome to another result type (`ok` cannot occur
at the call sites; it is mapped to `panic`). -/
def DlOutcome.castFail {α β : Type} : DlOutcome α → DlOutcome β
  | .ok _ => .panic
  | .err e => .err e
  | .panic => .panic
  | .spin => .spin
  | .fuelOut => .fuelOut

/-- `GlobalDylib::get_lib`: builds a user handle from a registry entry. -/
def get_lib (entry : GlobalDylib) : ElfLibrary :=
  ⟨entry.inner, entry.flags, entry.deps⟩

/-- Result of `OpenContext::try_existing`. -/
inductive TryExisting where
  | not_found
  | found (lib : ElfLibrary) (m : Manager)
  | spin

/-- `OpenContext::try_existing`: dedup against the registry under the short
name of `path`. A relocated entry is returned as a handle, with `GLOBAL` and
`NODELETE` promoted in place (OR-ed into the stored flags, and the record
inserted into `global` on a `GLOBAL` request); an entry still loading makes
the caller spin (in this sequential embedding, `spin`). -/
def try_existing (path : String) (flags : OpenFlags) (m : Manager) : TryExisting :=
  let shortname := shortname_of path
  match imGet m.all shortname with
  | none => .not_found
  | some entry =>
    if entry.state.is_relocated then
      let lib := get_lib entry
      if (flags.rtld_global && !lib.flags.rtld_global)
          || (flags.rtld_nodelete && !lib.flags.rtld_nodelete) then
        let m2 := { m with
          all := imModify m.all shortname
            (fun e => { e with flags := e.flags.orF (flags.andF gnMask) }) }
        let m3 :=
          if flags.rtld_global then
            match imGet m2.all shortname with
            | some e => { m2 with global := imInsert m2.global shortname e.inner }
            | none => m2
          else m2
        .found { lib with flags := lib.flags.orF (flags.andF gnMask) } m3
      else .found lib m
    else .spin

/-- The mutable state of one `dlopen` transaction (`OpenContext`), minus the
lock itself: the per-transaction new-libs and dep-libs vectors, the effective
flags, and the registry checkpoint taken when the write lock was acquired. -/
structure OpenCtx where
  new_libs : List LibInfo
  dep_libs : List LibInfo
  flags : OpenFlags
  old_all_len : Nat
  old_global_len : Nat

/-- `OpenContext::register_new`: registers a freshly loaded object with state
`NewIndex(new_libs.len() as u8)` and pushes it onto both vectors. The `u8`
cast is the `% 256` and the `assert!(idx < 254)` in `set_new_idx` is the
`none` case — a panic. -/
def register_new (ctx : OpenCtx) (lib : LibInfo) (m : Manager) :
    Option (OpenCtx × Manager) :=
  let new_idx := ctx.new_libs.length
  match DylibState.set_new_idx (new_idx % 256) with
  | none => none
  | some st =>
    let m2 := register lib ctx.flags m st
    some ({ ctx with dep_libs := ctx.dep_libs ++ [lib], new_libs := ctx.new_libs ++ [lib] }, m2)

/-- The already-loaded branch of the `load_deps` inner loop: link the
registered `entry` into `dep_libs` once; when the transaction's flags newly
request `GLOBAL`, replace the entry's flags with the transaction's flags
(`set_flags(self.flags)`) and insert the record into `global`. -/
def link_existing_dep (ctx : OpenCtx) (m : Manager) (lib_name : String)
    (entry : GlobalDylib) : OpenCtx × Manager :=
  if ctx.dep_libs.any (fun d => d.shortname = lib_name) then (ctx, m)
  else
    let ctx2 := { ctx with dep_libs := ctx.dep_libs ++ [entry.inner] }
    if (ctx2.flags.diffF entry.flags).rtld_global then
      let m2 := { m with all := imModify m.all lib_name (fun e => { e with flags := ctx2.flags }) }
      let m3 := { m2 with global := imInsert m2.global lib_name entry.inner }
      (ctx2, m3)
    else (ctx2, m)

/-- The inner loop of `OpenContext::load_deps` over one parent's `DT_NEEDED`
names. A name already in the registry is linked (pushed onto `dep_libs` once)
and, when the transaction's flags newly request `GLOBAL`, the entry's flags
are replaced by the transaction's flags (`set_flags(self.flags)`) and the
record is inserted into `global`. An unknown name goes through `find_library`
and `register_new`; a resolver failure aborts the transaction. -/
def process_needed (env : Env) (rpath runpath : List String) :
    OpenCtx → Manager → List String → DlOutcome OpenCtx × Manager
  | ctx, m, [] => (.ok ctx, m)
  | ctx, m, lib_name :: rest =>
    match imGet m.all lib_name with
    | some entry =>
      match link_existing_dep ctx m lib_name entry with
      | (ctx2, m2) => process_needed env rpath runpath ctx2 m2 rest
    | none =>
      match find_library env rpath runpath lib_name (fun p => (env.load_file p).isSome) with
      | .error e => (.err e, m)
      | .ok p =>
        match env.load_file p with
        | none => (.panic, m)
        | some lib =>
          match register_new ctx lib m with
          | none => (.panic, m)
          | some (ctx2, m2) => process_needed env rpath runpath ctx2 m2 rest

/-- `OpenContext::load_deps`: BFS work-list over `dep_libs`. For each parent
in turn, its RPATH/RUNPATH are expanded through `fixup_rpath` only when the
parent is one of this transaction's new libraries, then every needed name is
processed. The work list grows as new libraries are registered; `fuel` bounds
the embedding's iteration count. -/
def load_deps (env : Env) : Nat → OpenCtx → Manager → Nat → DlOutcome OpenCtx × Manager
  | 0, _, m, _ => (.fuelOut, m)
  | fuel + 1, ctx, m, cur_pos =>
    if h : cur_pos < ctx.dep_libs.length then
      let cur := ctx.dep_libs.get ⟨cur_pos, h⟩
      match imGet m.all cur.shortname with
      | none => (.panic, m)
      | some pe =>
        let paths? : Option (List String × List String) :=
          match pe.state.get_new_idx with
          | some idx =>
            match ctx.new_libs.get? idx with
            | some plib =>
              some ((plib.rpath.map (fun r => fixup_rpath plib.name r)).getD [],
                    (plib.runpath.map (fun r => fixup_rpath plib.name r)).getD [])
            | none => none
          | none => some ([], [])
        match paths? with
        | none => (.panic, m)
        | some (rpath, runpath) =>
          match process_needed env rpath runpath ctx m cur.needed_libs with
          | (.ok ctx2, m2) => load_deps env fuel ctx2 m2 (cur_pos + 1)
          | r => r
    else (.ok ctx, m)

/-- The BFS loop of `update_dependency_scopes` in `core_impl/register.rs`:
pop a name, append its registry record to the scope, and enqueue its unseen
needed names in order. A name missing from `all` is the indexing panic;
`fuel` bounds the iteration count. -/
def bfs_loop (manager : Manager) :
    Nat → List LibInfo → List String → List String → Option (List LibInfo)
  | 0, _, _, _ => none
  | _ + 1, scope, _, [] => some scope
  | fuel + 1, scope, visited, current :: rest =>
    match imGet manager.all current with
    | none => none
    | some entry =>
      let dylib := entry.inner
      let step := dylib.needed_libs.foldl
        (fun (vq : List String × List String) needed =>
          if vq.1.contains needed then vq else (vq.1 ++ [needed], vq.2 ++ [needed]))
        (visited, rest)
      bfs_loop manager fuel (scope ++ [dylib]) step.1 step.2

/-- `update_dependency_scopes`: for each root in turn, BFS from the root over
`needed` and store the flattened deduplicated searchlist on the root's
registry entry. -/
def update_dependency_scopes (fuel : Nat) (manager : Manager) :
    List String → Option Manager
  | [] => some manager
  | root :: rest =>
    match bfs_loop manager fuel [] [root] [root] with
    | none => none
    | some scope =>
      update_dependency_scopes fuel
        { manager with all := imModify manager.all root (fun e => { e with deps := some scope }) }
        rest

/-- The root-selection filter of the api-side `update_dependency_scopes`
wrapper: the short names of the `dep_libs` whose registry state still carries
a new-batch index. -/
def new_lib_names (ctx : OpenCtx) (m : Manager) : List String :=
  (ctx.dep_libs.filter (fun lib =>
    match imGet m.all lib.shortname with
    | some e => e.state.get_new_idx.isSome
    | none => false)).map (fun lib => lib.shortname)

/-- A `compute_order` stack item: the new-libs index being visited and the
resume position in its needed list. -/
structure OrderItem where
  idx : Nat
  next : Nat

/-- The inner scan of `compute_order` over the tail of a needed list: the
first name still in a new-batch state is marked relocated (the DFS visit
marker) and its index returned; a name missing from `all` is the `unwrap`
panic (outer `none`). -/
def scan_names (m : Manager) : List String → Option (Option (Nat × Manager))
  | [] => some none
  | n :: rest =>
    match imGet m.all n with
    | none => none
    | some e =>
      match e.state.get_new_idx with
      | some idx =>
        some (some (idx,
          { m with all := imModify m.all n (fun e2 => { e2 with state := DylibState.set_relocated }) }))
      | none => scan_names m rest

/-- The explicit-stack depth-first post-order loop of
`OpenContext::compute_order`. -/
def compute_order_loop (new_libs : List LibInfo) :
    Nat → Manager → List OrderItem → List Nat → DlOutcome (List Nat) × Manager
  | 0, m, _, _ => (.fuelOut, m)
  | _ + 1, m, [], order => (.ok order, m)
  | fuel + 1, m, item :: stack, order =>
    match new_libs.get? item.idx with
    | none => (.panic, m)
    | some lib =>
      match scan_names m (lib.needed_libs.drop item.next) with
      | none => (.panic, m)
      | some none => compute_order_loop new_libs fuel m stack (order ++ [item.idx])
      | some (some (idx, m2)) =>
        compute_order_loop new_libs fuel m2
          (⟨idx, 0⟩ :: ⟨item.idx, item.next + 1⟩ :: stack) order

/-- `OpenContext::compute_order`: empty when nothing new was loaded,
otherwise the DFS rooted at new-libs index 0. -/
def compute_order (fuel : Nat) (ctx : OpenCtx) (m : Manager) :
    DlOutcome (List Nat) × Manager :=
  if ctx.new_libs.isEmpty then (.ok [], m)
  else compute_order_loop ctx.new_libs fuel m [⟨0, 0⟩] []

/-- `OpenContext::set_relocating`: flips every dep's state to `Relocating`
(entries missing from `all` are skipped). -/
def set_relocating_all (ctx : OpenCtx) (m : Manager) : Manager :=
  ctx.dep_libs.foldl
    (fun m lib =>
      { m with
        all := imModify m.all lib.shortname
          (fun e => { e with state := DylibState.set_relocating }) }) m

/-- `OpenContext::set_relocated`: flips every dep's state to `Relocated`. -/
def set_relocated_all (ctx : OpenCtx) (m : Manager) : Manager :=
  ctx.dep_libs.foldl
    (fun m lib =>
      { m with
        all := imModify m.all lib.shortname
          (fun e => { e with state := DylibState.set_relocated }) }) m

/-- `OpenContext::relocate`: marks the deps relocating, releases the lock,
relocates the new libraries in the computed order (the scope composition and
lazy-binding closure are the external relocator's concern; its verdict is the
`reloc_ok` oracle), and on success marks everything relocated. The first
relocation failure aborts the transaction. -/
def relocate_all (env : Env) (ctx : OpenCtx) (order : List Nat) (m : Manager) :
    DlOutcome Unit × Manager :=
  let m1 := set_relocating_all ctx m
  match order.find? (fun idx => !(env.reloc_ok ((ctx.new_libs.getD idx default).name))) with
  | some idx => (.err (.relocate_fail ((ctx.new_libs.getD idx default).name)), m1)
  | none => (.ok (), set_relocated_all ctx m1)

/-- The rollback that `OpenContext::drop` performs when `committed` is false:
truncate `all` and `global` back to the checkpoint lengths. -/
def rollback_ctx (ctx : OpenCtx) (m : Manager) : Manager :=
  { m with all := m.all.take ctx.old_all_len, global := m.global.take ctx.old_global_len }

/-- The phases of `dlopen_impl` that run once the root library has been
registered: dependency loading, searchlist computation, relocation ordering,
relocation, and the committed handle; every non-committed exit replays the
checkpoint by truncation. -/
def dlopen_phases (env : Env) (fuel : Nat) (ctx1 : OpenCtx) (m1 : Manager) :
    DlOutcome ElfLibrary × Manager :=
  match load_deps env fuel ctx1 m1 0 with
  | (.ok ctx2, m2) =>
    (match update_dependency_scopes fuel m2 (new_lib_names ctx2 m2) with
     | none => (.panic, rollback_ctx ctx2 m2)
     | some m3 =>
       match compute_order fuel ctx2 m3 with
       | (.ok order, m4) =>
         (match relocate_all env ctx2 order m4 with
          | (.ok _, m5) =>
            (.ok { inner := ctx2.dep_libs.getD 0 default, flags := ctx2.flags,
                   deps := some ctx2.dep_libs }, m5)
          | (out, m5) => (out.castFail, rollback_ctx ctx2 m5))
       | (out, m4) => (out.castFail, rollback_ctx ctx2 m4))
  | (out, m2) => (out.castFail, rollback_ctx ctx1 m2)

/-- The checkpointing part of `OpenContext::new`: empty per-transaction
vectors and the registry lengths saved for rollback (the `LD_BIND_NOW` flag
fix happens before this in `dlopen_impl`). -/
def init_ctx (flags : OpenFlags) (m0 : Manager) : OpenCtx :=
  { new_libs := [], dep_libs := [], flags := flags,
    old_all_len := m0.all.length, old_global_len := m0.global.length }

/-- Root resolution of `dlopen_impl`: a path containing `/` is loaded
verbatim; a bare name goes through `find_library` with empty RPATH/RUNPATH
and the loaded object is returned. -/
def load_root (env : Env) (path : String) : DlOutcome LibInfo :=
  if path.toList.contains '/' then
    match env.load_file path with
    | some lib => .ok lib
    | none => .err (.load_fail path)
  else
    match find_library env [] [] path (fun p => (env.load_file p).isSome) with
    | .error e => .err e
    | .ok p =>
      match env.load_file p with
      | some lib => .ok lib
      | none => .panic

/-- `dlopen_impl` after the `LD_BIND_NOW` flag fix: checkpoint, dedup
short-circuit, `RTLD_NOLOAD` check, root load and registration, then the
remaining phases. -/
def dlopen_body (env : Env) (fuel : Nat) (path : String) (flags : OpenFlags)
    (m0 : Manager) : DlOutcome ElfLibrary × Manager :=
  let ctx := init_ctx flags m0
  match try_existing path flags m0 with
  | .spin => (.spin, m0)
  | .found lib m => (.ok lib, m)
  | .not_found =>
    if flags.rtld_noload then
      (.err (.find_lib ("can not find file: " ++ path)), rollback_ctx ctx m0)
    else
      match load_root env path with
      | .ok root_lib =>
        (match register_new ctx root_lib m0 with
         | none => (.panic, rollback_ctx ctx m0)
         | some (ctx1, m1) => dlopen_phases env fuel ctx1 m1)
      | out => (out.castFail, rollback_ctx ctx m0)

/-- `dlopen_impl`: the whole transaction. `LD_BIND_NOW` forces `RTLD_NOW`;
the checkpoint is taken; dedup short-circuits; `RTLD_NOLOAD` on an unknown
name fails; the root is resolved and loaded; dependencies are loaded
breadth-first; searchlists are computed; the relocation order is derived; the
new libraries are relocated; and the handle over `dep_libs` is returned. On
every non-committed exit the checkpoint is replayed by truncation. -/
def dlopen_impl (env : Env) (fuel : Nat) (path : String) (flags : OpenFlags)
    (m0 : Manager) : DlOutcome ElfLibrary × Manager :=
  dlopen_body env fuel path
    (if env.ld_bind_now then { flags with rtld_now := true } else flags) m0

/-- One `__cxa_atexit`/`__cxa_thread_atexit_impl` registration: the recorded
`dso_handle` address and an opaque identity for the `(func, arg)` pair. -/
structure Destructor where
  dso_handle : Nat
  func : Nat
  deriving DecidableEq, Repr

/-- The `while i < len` removal loop of `finalize`: entries satisfying the
predicate are moved out in registration order, the rest keep their order. -/
def extract_matching (pred : Destructor → Bool) :
    List Destructor → List Destructor × List Destructor
  | [] => ([], [])
  | d :: rest =>
    let (rem, run) := extract_matching pred rest
    if pred d then (rem, d :: run) else (d :: rem, run)

/-- The match arm of `finalize`: a null handle matches everything; with a
resolved range, membership of the entry's handle in the range; otherwise
exact handle equality. -/
def destructor_matches (dso_handle : Nat) (range : Option (Nat × Nat))
    (d : Destructor) : Bool :=
  if dso_handle = 0 then true
  else
    match range with
    | some r => decide (r.1 ≤ d.dso_handle) && decide (d.dso_handle < r.2)
    | none => d.dso_handle = dso_handle

/-- `finalize(dso_handle, range)`: when no range was supplied and the handle
is non-null, the first registered library whose mapping contains the handle
supplies the range; the matching destructor entries are removed from the
queue and run in reverse registration order. Returns (remaining queue, run
order). -/
def finalize (m : Manager) (queue : List Destructor) (dso_handle : Nat)
    (range : Option (Nat × Nat)) : List Destructor × List Destructor :=
  let range :=
    if range.isNone ∧ dso_handle ≠ 0 then
      match m.all.find? (fun p =>
          decide (p.2.inner.base ≤ dso_handle) &&
          decide (dso_handle < p.2.inner.base + p.2.inner.mapped_len)) with
      | some p => some (p.2.inner.base, p.2.inner.base + p.2.inner.mapped_len)
      | none => none
    else range
  let pr := extract_matching (destructor_matches dso_handle range) queue
  (pr.1, pr.2.reverse)

/-- `__cxa_finalize(dso_handle)`: `finalize` with no precomputed range. -/
def cxa_finalize (m : Manager) (queue : List Destructor) (dso_handle : Nat) :
    List Destructor × List Destructor :=
  finalize m queue dso_handle none

/-- The Arc strong-count oracle consulted by `Drop for ElfLibrary`. -/
structure DropEnv where
  strong_count : LibInfo → Nat

/-- The per-dependency check in `Drop for ElfLibrary`: a searchlist
dependency still registered, not `NODELETE`, whose strong count equals its
own `2 + has_deps + is_global` threshold, is removed from `all` and `global`
with `subs` bumped. -/
def drop_dep_step (denv : DropEnv) (acc : Manager × List LibInfo) (dep : LibInfo) :
    Manager × List LibInfo :=
  match imGet acc.1.all dep.shortname with
  | none => acc
  | some lib =>
    if lib.flags.rtld_nodelete then acc
    else
      let dep_threshold := 2 + (if lib.deps.isSome then 1 else 0)
          + (if lib.flags.rtld_global then 1 else 0)
      if denv.strong_count dep = dep_threshold then
        ({ acc.1 with
           all := imShiftRemove acc.1.all dep.shortname,
           global := imShiftRemove acc.1.global dep.shortname,
           subs := acc.1.subs + 1 }, acc.2 ++ [dep])
      else acc

/-- `Drop for ElfLibrary`: nothing happens under `NODELETE` or
`NOT_REGISTER`. Otherwise, when the core's strong count equals the threshold
`2 + has_deps + is_global`, the record leaves `all` (and `global` when it is
`GLOBAL`), `subs` is bumped, every searchlist dependency after the self entry
is checked for its own threshold (skipping `NODELETE` deps and deps no longer
registered), and then — lock released — the destructor queue is drained per
removed library over its mapped range. Returns (manager, remaining queue,
destructors run in order, removed libraries). -/
def drop_elf_library (denv : DropEnv) (self : ElfLibrary) (m : Manager)
    (queue : List Destructor) :
    Manager × List Destructor × List Destructor × List LibInfo :=
  if self.flags.rtld_nodelete || self.flags.custom_not_register then (m, queue, [], [])
  else
    let threshold := 2 + (if self.deps.isSome then 1 else 0)
        + (if self.flags.rtld_global then 1 else 0)
    if denv.strong_count self.inner = threshold then
      let shortname := self.inner.shortname
      let m1 := { m with all := imShiftRemove m.all shortname, subs := m.subs + 1 }
      let m2 :=
        if self.flags.rtld_global then
          { m1 with global := imShiftRemove m1.global shortname }
        else m1
      let step := ((self.deps.getD []).drop 1).foldl (drop_dep_step denv) (m2, [self.inner])
      let fin := step.2.foldl
        (fun (acc : List Destructor × List Destructor) lib =>
          let r := finalize step.1 acc.1 lib.base (some (lib.base, lib.base + lib.mapped_len))
          (r.1, acc.2 ++ r.2))
        (queue, [])
      (step.1, fin.1, fin.2, step.2)
    else (m, queue, [], [])

/-- `entry_inner m k`: the loaded object stored under key `k` (junk default
when the key is absent; every use below is guarded by presence). -/
def entry_inner (m : Manager) (k : String) : LibInfo :=
  match imGet m.all k with
  | some e => e.inner
  | none => default

theorem imGet_imInsert_self {α : Type} (m : List (String × α)) (k : String) (v : α) :
    imGet (imInsert m k v) k = some v := by
  induction m with
  | nil => simp [imInsert, imGet, List.find?]
  | cons p rest ih =>
    by_cases hp : p.1 = k
    · simp [imInsert, hp, imGet, List.find?]
    · simp only [imInsert, hp, if_false]
      simpa [imGet, List.find?, hp] using ih

theorem imGet_cons_ne {α : Type} (p : String × α) (l : List (String × α)) (k : String)
    (hp : p.1 ≠ k) : imGet (p :: l) k = imGet l k := by
  have hpred : ((fun q : String × α => decide (q.1 = k)) p) = false := by simp [hp]
  simp only [imGet, List.find?_cons, hpred]

theorem imGet_cons_eq {α : Type} (p : String × α) (l : List (String × α)) (k : String)
    (hp : p.1 = k) : imGet (p :: l) k = some p.2 := by
  have hpred : ((fun q : String × α => decide (q.1 = k)) p) = true := by simp [hp]
  simp only [imGet, List.find?_cons, hpred]
  rfl

theorem imGet_imModify_self {α : Type} (m : List (String × α)) (k : String) (f : α → α) :
    imGet (imModify m k f) k = (imGet m k).map f := by
  induction m with
  | nil => simp [imModify, imGet, List.find?]
  | cons p rest ih =>
    by_cases hp : p.1 = k
    · simp [imModify, hp, imGet, List.find?]
    · calc imGet (imModify (p :: rest) k f) k
          = imGet (p :: imModify rest k f) k := by simp [imModify, hp]
        _ = imGet (imModify rest k f) k := imGet_cons_ne _ _ _ hp
        _ = (imGet rest k).map f := ih
        _ = (imGet (p :: rest) k).map f := by rw [imGet_cons_ne _ _ _ hp]

theorem length_imInsert {α : Type} (m : List (String × α)) (k : String) (v : α) :
    m.length ≤ (imInsert m k v).length := by
  induction m with
  | nil => simp [imInsert]
  | cons p rest ih =>
    by_cases hp : p.1 = k
    · simp [imInsert, hp]
    · simp only [imInsert, hp, if_false, List.length_cons]
      omega

theorem length_imModify {α : Type} (m : List (String × α)) (k : String) (f : α → α) :
    (imModify m k f).length = m.length := by
  simp [imModify]

theorem try_paths_eq_find (ok : String → Bool) (lib_name : String) :
    ∀ paths : List String,
      try_paths ok lib_name paths = (paths.map (fun p => path_join p lib_name)).find? ok
  | [] => rfl
  | p :: rest => by
    by_cases hok : ok (path_join p lib_name) = true
    · simp [try_paths, hok, List.find?_cons_of_pos]
    · rw [try_paths, if_neg hok, List.map_cons, List.find?_cons_of_neg _ hok]
      exact try_paths_eq_find ok lib_name rest

/-- Claim C5: for a requested library name that contains no `/`,
`find_library` works through the candidate paths in exactly the order —
(1) the parent's DT_RPATH entries, only when the parent's DT_RUNPATH list is
empty; (2) the `LD_LIBRARY_PATH` entries; (3) the parent's DT_RUNPATH
entries; (4) the ld.so.cache hit; (5) the default system paths — stopping at
the first candidate that succeeds, and when every candidate fails it returns
a library-not-found error whose message contains the requested name. -/
theorem find_library_search_order (env : Env) (rpath runpath : List String)
    (lib_name : String) (ok : String → Bool)
    (hname : lib_name.toList.contains '/' = false) :
    (find_library env rpath runpath lib_name ok =
      match (search_candidates env rpath runpath lib_name).find? ok with
      | some p => Except.ok p
      | none => Except.error (DlError.find_lib ("can not find file: " ++ lib_name))) ∧
    ∃ pre post, "can not find file: " ++ lib_name = pre ++ lib_name ++ post := by
  refine ⟨?_, "can not find file: ", "", by simp⟩
  unfold find_library search_candidates
  rw [List.find?_append, List.find?_append, List.find?_append, List.find?_append]
  rw [← try_paths_eq_find, ← try_paths_eq_find, ← try_paths_eq_find]
  have hrp : (if runpath.isEmpty then rpath.map (fun p => path_join p lib_name) else []).find? ok
      = (if runpath.isEmpty then try_paths ok lib_name rpath else none) := by
    by_cases hre : runpath.isEmpty <;> simp [hre, try_paths_eq_find]
  rw [hrp]
  have hca : (match env.ld_cache lib_name with
      | some path => [path]
      | none => []).find? ok
      = (match env.ld_cache lib_name with
         | some path => if ok path then some path else none
         | none => none) := by
    cases hc : env.ld_cache lib_name with
    | some path =>
      by_cases hok : ok path = true <;> simp [List.find?, hok]
    | none => simp [List.find?]
  rw [hca]
  cases h1 : (if runpath.isEmpty then try_paths ok lib_name rpath else none) with
  | some p => simp [Option.or]
  | none =>
  simp only [Option.none_or]
  cases h2 : try_paths ok lib_name env.ld_library_path with
  | some p => simp [Option.or]
  | none =>
  simp only [Option.none_or]
  cases h3 : try_paths ok lib_name runpath with
  | some p => simp [Option.or]
  | none =>
  simp only [Option.none_or]
  cases h4 : (match env.ld_cache lib_name with
      | some path => if ok path then some path else none
      | none => none) with
  | some p => simp [Option.or]
  | none =>
  simp only [Option.none_or]

/-- A minimal concrete environment: nothing on disk, empty `LD_LIBRARY_PATH`,
empty cache, `LD_BIND_NOW` unset, relocation always succeeding. -/
def env0 : Env where
  load_file := fun _ => none
  ld_library_path := []
  ld_cache := fun _ => none
  ld_bind_now := false
  reloc_ok := fun _ => true

theorem find_library_search_order_witness :
    ("libfoo.so".toList.contains '/' = false) ∧
    ((find_library env0 [] [] "libfoo.so" (fun _ => false) =
      match (search_candidates env0 [] [] "libfoo.so").find? (fun _ => false) with
      | some p => Except.ok p
      | none => Except.error (DlError.find_lib ("can not find file: " ++ "libfoo.so"))) ∧
    ∃ pre post, "can not find file: " ++ "libfoo.so" = pre ++ "libfoo.so" ++ post) :=
  ⟨by decide, find_library_search_order env0 [] [] "libfoo.so" (fun _ => false) (by decide)⟩

/-- The directory portion of a library path used by `$ORIGIN` expansion: the
characters before the last `/`, or `.` when there is no `/`. -/
def origin_dir (lib_path : String) : List Char :=
  match rsplit_once '/' lib_path.toList with
  | some (pre, _) => pre
  | none => ['.']

/-- Claim C9: `fixup_rpath` on a requesting path `P` and RPATH/RUNPATH string
`R` — (1) without `$`, `R` is split on `:` with empty segments dropped;
(2) with `$` and some `$`-introduced segment not beginning with `ORIGIN` or
`{ORIGIN}`, the result is the empty path list; (3) otherwise every `$ORIGIN`
occurrence is replaced by the directory portion of `P` (`.` when `P` has no
`/`) and the result split on `:`; in particular a library at
`/opt/app/lib/libA.so` with RUNPATH `$ORIGIN/../ext` yields the single search
directory `/opt/app/lib/../ext` (filesystem-equivalent to `/opt/app/ext`). -/
theorem fixup_rpath_origin_expansion (P R : String) :
    (R.toList.contains '$' = false → fixup_rpath P R = parse_path_list R) ∧
    (R.toList.contains '$' = true →
      (∃ s ∈ (splitOnChar '$' R.toList).drop 1,
          "ORIGIN".toList.isPrefixOf s = false ∧ "{ORIGIN}".toList.isPrefixOf s = false) →
      fixup_rpath P R = []) ∧
    (R.toList.contains '$' = true →
      (∀ s ∈ (splitOnChar '$' R.toList).drop 1,
          "ORIGIN".toList.isPrefixOf s = true ∨ "{ORIGIN}".toList.isPrefixOf s = true) →
      fixup_rpath P R =
        parse_path_list (String.mk (replaceAll "$ORIGIN".toList (origin_dir P) R.toList))) ∧
    fixup_rpath "/opt/app/lib/libA.so" "$ORIGIN/../ext" = ["/opt/app/lib/../ext"] := by
  refine ⟨?_, ?_, ?_, by decide⟩
  · intro hc
    unfold fixup_rpath
    rw [if_neg (by rw [hc]; exact Bool.false_ne_true)]
  · intro hc hbad
    obtain ⟨s, hs, h1, h2⟩ := hbad
    have hany : ((splitOnChar '$' R.toList).drop 1).any
        (fun s => !("ORIGIN".toList.isPrefixOf s) && !("{ORIGIN}".toList.isPrefixOf s)) = true := by
      rw [List.any_eq_true]
      exact ⟨s, hs, by rw [h1, h2]; rfl⟩
    unfold fixup_rpath
    rw [if_pos hc, if_pos hany]
  · intro hc hgood
    have hany : ((splitOnChar '$' R.toList).drop 1).any
        (fun s => !("ORIGIN".toList.isPrefixOf s) && !("{ORIGIN}".toList.isPrefixOf s)) = false := by
      rw [List.any_eq_false]
      intro s hs
      rcases hgood s hs with h | h
      · rw [h]; simp
      · rw [h]; simp
    unfold fixup_rpath
    rw [if_pos hc, if_neg (by rw [hany]; exact Bool.false_ne_true)]
    rfl

theorem fixup_rpath_origin_expansion_witness :
    ("$ORIGIN/../ext".toList.contains '$' = true) ∧
    (∀ s ∈ (splitOnChar '$' "$ORIGIN/../ext".toList).drop 1,
        "ORIGIN".toList.isPrefixOf s = true ∨ "{ORIGIN}".toList.isPrefixOf s = true) ∧
    fixup_rpath "/opt/app/lib/libA.so" "$ORIGIN/../ext" =
      parse_path_list (String.mk (replaceAll "$ORIGIN".toList
        (origin_dir "/opt/app/lib/libA.so") "$ORIGIN/../ext".toList)) :=
  ⟨by decide, by decide,
    (fixup_rpath_origin_expansion "/opt/app/lib/libA.so" "$ORIGIN/../ext").2.2.1
      (by decide) (by decide)⟩

/-- The empty registry. -/
def mgr0 : Manager := { all := [], global := [], adds := 0, subs := 0 }

/-- The claim's pattern list for C7, following the spec's words (`libc`,
`libpthread`, `libdl`, `libgcc_s`, `ld-linux*`, `ld-musl*`): a refinement
comparison definition to hold against the source's `runtime_patterns`. -/
def spec_runtime_patterns : List String :=
  ["libc", "libpthread", "libdl", "libgcc_s", "ld-linux", "ld-musl"]

/-- Claim C7 counterexample: `ld-musl-x86_64.so.1` matches the claim's
`ld-musl*` pattern, yet `register` stores it with `RTLD_NODELETE` absent when
the caller did not pass it — the source checks only `libc.so`,
`libpthread.so`, `libdl.so`, `libgcc_s.so` and `ld-linux`. -/
theorem register_ld_musl_counterexample :
    (spec_runtime_patterns.any (fun pat => strContains "ld-musl-x86_64.so.1" pat) = true) ∧
    ((imGet (register
        { name := "/lib/ld-musl-x86_64.so.1", shortname := "ld-musl-x86_64.so.1",
          needed_libs := [], rpath := none, runpath := none, is_lazy := false,
          base := 0, mapped_len := 0 }
        {} mgr0 ⟨0⟩).all
      "ld-musl-x86_64.so.1").map (fun e => e.flags.rtld_nodelete) = some false) := by
  exact ⟨by decide, by decide⟩

/-- Claim C7 (amended): for every library actually registered by `register`
(`CUSTOM_NOT_REGISTER` absent), the stored flags contain `RTLD_NODELETE` iff
the caller's flags contained it or the short name contains (as a substring)
one of the source's five runtime fragments `libc.so`, `libpthread.so`,
`libdl.so`, `libgcc_s.so`, `ld-linux` — the source has no `ld-musl`
pattern. -/
theorem register_nodelete_promotion (lib : LibInfo) (flags : OpenFlags)
    (m : Manager) (st : DylibState)
    (hreg : flags.custom_not_register = false) :
    ∃ entry, imGet (register lib flags m st).all lib.shortname = some entry ∧
      entry.flags.rtld_nodelete =
        (flags.rtld_nodelete ||
          runtime_patterns.any (fun pat => strContains lib.shortname pat)) ∧
      entry.inner = lib ∧ entry.state = st := by
  simp only [register]
  split_ifs with h1 h2 h3 h4 h5
  · exact absurd h1 (by rw [hreg]; exact Bool.false_ne_true)
  all_goals refine ⟨_, imGet_imInsert_self _ _ _, ?_, rfl, rfl⟩
  all_goals simp_all

/-- A concrete libc record for the C7 witness. -/
def libc0 : LibInfo :=
  { name := "/usr/lib/libc.so.6", shortname := "libc.so.6", needed_libs := [],
    rpath := none, runpath := none, is_lazy := false, base := 4096, mapped_len := 4096 }

theorem register_nodelete_promotion_witness :
    (({} : OpenFlags).custom_not_register = false) ∧
    ∃ entry, imGet (register libc0 {} mgr0 ⟨0⟩).all libc0.shortname = some entry ∧
      entry.flags.rtld_nodelete =
        (({} : OpenFlags).rtld_nodelete ||
          runtime_patterns.any (fun pat => strContains libc0.shortname pat)) ∧
      entry.inner = libc0 ∧ entry.state = (⟨0⟩ : DylibState) :=
  ⟨rfl, register_nodelete_promotion libc0 {} mgr0 ⟨0⟩ rfl⟩

theorem contains_iff_mem (l : List String) (a : String) : l.contains a = true ↔ a ∈ l := by
  simp

theorem imGet_mem {α : Type} (m : List (String × α)) (k : String) (e : α)
    (h : imGet m k = some e) : (k, e) ∈ m := by
  induction m with
  | nil => simp [imGet, List.find?] at h
  | cons p rest ih =>
    by_cases hp : p.1 = k
    · rw [imGet_cons_eq _ _ _ hp] at h
      have h2 : p.2 = e := by injection h
      have hpe : p = (k, e) := by
        cases p with
        | mk a b =>
          simp only at hp h2
          simp [hp, h2]
      rw [← hpe]
      exact List.mem_cons_self _ _
    · rw [imGet_cons_ne _ _ _ hp] at h
      exact List.mem_cons_of_mem _ (ih h)

theorem nodup_subset_length_le {l1 l2 : List String} (h1 : l1.Nodup)
    (hsub : ∀ x ∈ l1, x ∈ l2) : l1.length ≤ l2.length :=
  calc l1.length = l1.toFinset.card := (List.toFinset_card_of_nodup h1).symm
    _ ≤ l2.toFinset.card := Finset.card_le_card (by
        intro x hx
        rw [List.mem_toFinset] at hx ⊢
        exact hsub x hx)
    _ ≤ l2.length := List.toFinset_card_le l2

theorem visit_fold_spec :
    ∀ (names v q : List String),
      ∃ t, names.foldl
          (fun (vq : List String × List String) needed =>
            if vq.1.contains needed then vq else (vq.1 ++ [needed], vq.2 ++ [needed]))
          (v, q) = (v ++ t, q ++ t) ∧
        (v.Nodup → (v ++ t).Nodup) ∧
        (∀ x ∈ t, x ∈ names) ∧
        (∀ n ∈ names, n ∈ v ++ t)
  | [], v, q => ⟨[], by simp, by simp, by simp, by simp⟩
  | n :: rest, v, q => by
    by_cases hc : v.contains n = true
    · obtain ⟨t, h1, h2, h3, h4⟩ := visit_fold_spec rest v q
      refine ⟨t, ?_, h2, ?_, ?_⟩
      · rw [List.foldl_cons]
        simp only [hc, if_true]
        exact h1
      · intro x hx
        exact List.mem_cons_of_mem _ (h3 x hx)
      · intro x hx
        rcases List.mem_cons.mp hx with rfl | hx2
        · exact List.mem_append_left _ ((contains_iff_mem v x).mp hc)
        · exact h4 x hx2
    · obtain ⟨t, h1, h2, h3, h4⟩ := visit_fold_spec rest (v ++ [n]) (q ++ [n])
      have hnv : n ∉ v := fun hmem => hc ((contains_iff_mem v n).mpr hmem)
      refine ⟨n :: t, ?_, ?_, ?_, ?_⟩
      · rw [List.foldl_cons]
        simp only [hc, if_false, Bool.false_eq_true]
        rw [h1]
        simp
      · intro hv
        have hvn : (v ++ [n]).Nodup := by
          rw [List.nodup_append]
          refine ⟨hv, List.nodup_singleton n, ?_⟩
          intro x hx hxn
          rw [List.mem_singleton] at hxn
          exact hnv (hxn ▸ hx)
        have := h2 hvn
        simpa [List.append_assoc] using this
      · intro x hx
        rcases List.mem_cons.mp hx with rfl | hx2
        · exact List.mem_cons_self _ _
        · exact List.mem_cons_of_mem _ (h3 x hx2)
      · intro x hx
        rcases List.mem_cons.mp hx with rfl | hx2
        · exact List.mem_append_right _ (List.mem_cons_self _ _)
        · have := h4 x hx2
          simpa [List.append_assoc] using this

theorem bfs_loop_invariant (m : Manager) :
    ∀ fuel processed visited queue scope,
      visited = processed ++ queue →
      visited.Nodup →
      (∀ k ∈ visited, (imGet m.all k).isSome = true) →
      scope = processed.map (entry_inner m) →
      (∀ k ∈ processed, ∀ n ∈ (entry_inner m k).needed_libs, n ∈ visited) →
      (∀ p ∈ m.all, ∀ n ∈ p.2.inner.needed_libs, (imGet m.all n).isSome = true) →
      m.all.length + 1 ≤ fuel + processed.length →
      ∃ full,
        bfs_loop m fuel scope visited queue = some (full.map (entry_inner m)) ∧
        full.Nodup ∧
        List.IsPrefix (processed ++ queue) full ∧
        (∀ k ∈ full, (imGet m.all k).isSome = true) ∧
        (∀ k ∈ full, ∀ n ∈ (entry_inner m k).needed_libs, n ∈ full) := by
  intro fuel
  induction fuel with
  | zero =>
    intro processed visited queue scope hv hnd hkeys hscope hneed hcl hfuel
    exfalso
    have hpnd : processed.Nodup := ((hv ▸ hnd) : (processed ++ queue).Nodup).of_append_left
    have hpsub : ∀ x ∈ processed, x ∈ m.all.map Prod.fst := by
      intro x hx
      have hxv : x ∈ visited := hv ▸ List.mem_append_left _ hx
      obtain ⟨e, he⟩ := Option.isSome_iff_exists.mp (hkeys x hxv)
      exact List.mem_map.mpr ⟨(x, e), imGet_mem _ _ _ he, rfl⟩
    have hle := nodup_subset_length_le hpnd hpsub
    rw [List.length_map] at hle
    omega
  | succ fuel ih =>
    intro processed visited queue scope hv hnd hkeys hscope hneed hcl hfuel
    cases queue with
    | nil =>
      refine ⟨processed, ?_, ?_, ?_, ?_, ?_⟩
      · simp only [bfs_loop, hscope]
      · have h1 : (processed ++ ([] : List String)).Nodup := hv ▸ hnd
        simpa using h1
      · simpa using List.prefix_rfl
      · intro k hk
        exact hkeys k (hv ▸ (by simpa using List.mem_append_left ([] : List String) hk))
      · intro k hk n hn
        have := hneed k hk n hn
        rw [hv] at this
        simpa using this
    | cons current rest =>
      have hcurv : current ∈ visited := hv ▸ List.mem_append_right _ (List.mem_cons_self _ _)
      obtain ⟨e, he⟩ := Option.isSome_iff_exists.mp (hkeys current hcurv)
      obtain ⟨t, hfold, hndf, htnames, hnames⟩ := visit_fold_spec e.inner.needed_libs visited rest
      have hstep : bfs_loop m (fuel + 1) scope visited (current :: rest)
          = bfs_loop m fuel (scope ++ [e.inner]) (visited ++ t) (rest ++ t) := by
        simp only [bfs_loop, he, hfold]
      have hpair : ∃ pm, pm ∈ m.all ∧ pm.1 = current ∧ pm.2 = e :=
        ⟨(current, e), imGet_mem _ _ _ he, rfl, rfl⟩
      have hkeys2 : ∀ k ∈ visited ++ t, (imGet m.all k).isSome = true := by
        intro k hk
        rcases List.mem_append.mp hk with hk1 | hk2
        · exact hkeys k hk1
        · obtain ⟨pm, hpm, _, hpm2⟩ := hpair
          exact hcl pm hpm k (by rw [hpm2]; exact htnames k hk2)
      have hv2 : visited ++ t = (processed ++ [current]) ++ (rest ++ t) := by
        rw [hv]
        simp
      have hscope2 : scope ++ [e.inner] = (processed ++ [current]).map (entry_inner m) := by
        rw [hscope, List.map_append]
        simp [entry_inner, he]
      have hneed2 : ∀ k ∈ processed ++ [current],
          ∀ n ∈ (entry_inner m k).needed_libs, n ∈ visited ++ t := by
        intro k hk n hn
        rcases List.mem_append.mp hk with hk1 | hk2
        · exact List.mem_append_left _ (hneed k hk1 n hn)
        · rw [List.mem_singleton] at hk2
          subst hk2
          have hinner : entry_inner m k = e.inner := by simp [entry_inner, he]
          rw [hinner] at hn
          exact hnames n hn
      have hfuel2 : m.all.length + 1 ≤ fuel + (processed ++ [current]).length := by
        simp only [List.length_append, List.length_cons, List.length_nil]
        omega
      obtain ⟨full, hrun, hfullnd, hpre, hfullkeys, hfullneed⟩ :=
        ih (processed ++ [current]) (visited ++ t) (rest ++ t) (scope ++ [e.inner])
          hv2 (hndf hnd) hkeys2 hscope2 hneed2 hcl hfuel2
      refine ⟨full, ?_, hfullnd, ?_, hfullkeys, hfullneed⟩
      · rw [hstep]
        exact hrun
      · have h1 : List.IsPrefix ((processed ++ current :: rest) ++ t) full := by
          have : (processed ++ [current]) ++ (rest ++ t) = (processed ++ current :: rest) ++ t := by
            simp
          rw [← this]
          exact hpre
        exact (List.prefix_append _ _).trans h1

/-- Storing a computed searchlist on a root entry: the `set_deps` write of
`update_dependency_scopes`. -/
def set_root_deps (m : Manager) (root : String) (scope : List LibInfo) : Manager :=
  { m with all := imModify m.all root (fun e => { e with deps := some scope }) }

/-- Claim C4: for a root processed by `update_dependency_scopes` — when the
root and, transitively, every needed name are keys of `all` (the closure
hypothesis), and with enough fuel for the embedding's loop — the BFS
completes and stores on the root a searchlist that is the first-visit
deduplicated BFS order over `needed`: it is the image of a duplicate-free
key sequence starting at the root, its first element is the root library
itself, and every needed short name of every member denotes a registered
library that occurs in the searchlist. -/
theorem update_dependency_scopes_searchlist (m : Manager) (root : String) (fuel : Nat)
    (hroot : (imGet m.all root).isSome = true)
    (hcl : ∀ p ∈ m.all, ∀ n ∈ p.2.inner.needed_libs, (imGet m.all n).isSome = true)
    (hfuel : m.all.length + 1 ≤ fuel) :
    ∃ full : List String,
      update_dependency_scopes fuel m [root]
        = some (set_root_deps m root (full.map (entry_inner m))) ∧
      (imGet (set_root_deps m root (full.map (entry_inner m))).all root).map
        (fun e => e.deps) = some (some (full.map (entry_inner m))) ∧
      full.head? = some root ∧
      (full.map (entry_inner m)).head? = some (entry_inner m root) ∧
      full.Nodup ∧
      (∀ k ∈ full, (imGet m.all k).isSome = true) ∧
      (∀ k ∈ full, ∀ n ∈ (entry_inner m k).needed_libs, n ∈ full) := by
  obtain ⟨full, hrun, hnd, hpre, hkeys, hneed⟩ :=
    bfs_loop_invariant m fuel [] [root] [root] []
      (by simp) (by simp) (by simpa using hroot) rfl (by simp) hcl (by simpa using hfuel)
  obtain ⟨tl, htl⟩ := hpre
  simp only [List.nil_append, List.cons_append] at htl
  have hhead : full.head? = some root := by
    rw [← htl]
    rfl
  refine ⟨full, ?_, ?_, hhead, ?_, hnd, hkeys, hneed⟩
  · simp only [update_dependency_scopes, hrun]
    rfl
  · simp only [set_root_deps]
    rw [imGet_imModify_self]
    obtain ⟨e, he⟩ := Option.isSome_iff_exists.mp hroot
    rw [he]
    simp
  · rw [List.head?_map, hhead]
    rfl

/-- A concrete two-library registry with a dependency cycle for the C4
witness: `liba.so` needs `libb.so` and `libb.so` needs `liba.so`. -/
def mgr_ab : Manager :=
  { all :=
      [("liba.so",
        { inner := { name := "/t/liba.so", shortname := "liba.so",
                     needed_libs := ["libb.so"], rpath := none, runpath := none,
                     is_lazy := false, base := 0, mapped_len := 16 },
          flags := {}, deps := none, state := ⟨255⟩ }),
       ("libb.so",
        { inner := { name := "/t/libb.so", shortname := "libb.so",
                     needed_libs := ["liba.so"], rpath := none, runpath := none,
                     is_lazy := false, base := 16, mapped_len := 16 },
          flags := {}, deps := none, state := ⟨255⟩ })],
    global := [], adds := 2, subs := 0 }

theorem update_dependency_scopes_searchlist_witness :
    ((imGet mgr_ab.all "liba.so").isSome = true) ∧
    (∀ p ∈ mgr_ab.all, ∀ n ∈ p.2.inner.needed_libs, (imGet mgr_ab.all n).isSome = true) ∧
    (mgr_ab.all.length + 1 ≤ 3) ∧
    (∃ full : List String,
      update_dependency_scopes 3 mgr_ab ["liba.so"]
        = some (set_root_deps mgr_ab "liba.so" (full.map (entry_inner mgr_ab))) ∧
      (imGet (set_root_deps mgr_ab "liba.so" (full.map (entry_inner mgr_ab))).all "liba.so").map
        (fun e => e.deps) = some (some (full.map (entry_inner mgr_ab))) ∧
      full.head? = some "liba.so" ∧
      (full.map (entry_inner mgr_ab)).head? = some (entry_inner mgr_ab "liba.so") ∧
      full.Nodup ∧
      (∀ k ∈ full, (imGet mgr_ab.all k).isSome = true) ∧
      (∀ k ∈ full, ∀ n ∈ (entry_inner mgr_ab k).needed_libs, n ∈ full)) :=
  ⟨by decide, by decide, by decide,
    update_dependency_scopes_searchlist mgr_ab "liba.so" 3 (by decide) (by decide) (by decide)⟩

theorem extract_matching_eq (pred : Destructor → Bool) :
    ∀ queue : List Destructor,
      extract_matching pred queue = (queue.filter (fun d => !(pred d)), queue.filter pred)
  | [] => rfl
  | d :: rest => by
    have ih := extract_matching_eq pred rest
    by_cases hd : pred d = true
    · simp [extract_matching, ih, List.filter_cons, hd]
    · simp [extract_matching, ih, List.filter_cons, hd]

theorem imGet_imShiftRemove_self {α : Type} (m : List (String × α)) (k : String) :
    imGet (imShiftRemove m k) k = none := by
  have hfind : (m.filter (fun p => p.1 ≠ k)).find? (fun p => decide (p.1 = k)) = none := by
    rw [List.find?_eq_none]
    intro p hp
    have hmem := List.of_mem_filter hp
    simp at hmem ⊢
    exact hmem
  simp [imGet, imShiftRemove, hfind]

/-- Claim C10: `__cxa_finalize(NULL)` removes and runs every registered
destructor, regardless of the `dso_handle` it was registered with, in
reverse registration order; `__cxa_finalize(h)` with a non-null `h` lying in
no registered library's mapped range removes and runs exactly the entries
whose `dso_handle` equals `h`, in reverse registration order. -/
theorem cxa_finalize_null_and_exact (m : Manager) (queue : List Destructor) (h : Nat)
    (hnz : h ≠ 0)
    (hnorange : ∀ p ∈ m.all,
      ¬(p.2.inner.base ≤ h ∧ h < p.2.inner.base + p.2.inner.mapped_len)) :
    (cxa_finalize m queue 0 = ([], queue.reverse)) ∧
    (cxa_finalize m queue h =
      (queue.filter (fun d => !(decide (d.dso_handle = h))),
       (queue.filter (fun d => decide (d.dso_handle = h))).reverse)) := by
  constructor
  · show finalize m queue 0 none = ([], queue.reverse)
    have hcond : ¬((none : Option (Nat × Nat)).isNone = true ∧ (0 : Nat) ≠ 0) := by simp
    have hpred : destructor_matches 0 none = fun _ => true := by
      funext d
      simp [destructor_matches]
    simp only [finalize, if_neg hcond, hpred, extract_matching_eq]
    simp
  · show finalize m queue h none = _
    have hcond : ((none : Option (Nat × Nat)).isNone = true ∧ h ≠ 0) := by simp [hnz]
    have hfind : m.all.find? (fun p =>
        decide (p.2.inner.base ≤ h) && decide (h < p.2.inner.base + p.2.inner.mapped_len))
        = none := by
      rw [List.find?_eq_none]
      intro p hp
      simpa using hnorange p hp
    have hpred : destructor_matches h none = fun d => decide (d.dso_handle = h) := by
      funext d
      simp only [destructor_matches, if_neg hnz]
    simp only [finalize, if_pos hcond, hfind, hpred, extract_matching_eq]

/-- A three-entry destructor queue for the C10 witness: two entries with
handle 5 around one with handle 7. -/
def queue0 : List Destructor := [⟨5, 0⟩, ⟨7, 1⟩, ⟨5, 2⟩]

theorem cxa_finalize_null_and_exact_witness :
    ((5 : Nat) ≠ 0) ∧
    (∀ p ∈ mgr0.all, ¬(p.2.inner.base ≤ 5 ∧ 5 < p.2.inner.base + p.2.inner.mapped_len)) ∧
    ((cxa_finalize mgr0 queue0 0 = ([], queue0.reverse)) ∧
     (cxa_finalize mgr0 queue0 5 =
       (queue0.filter (fun d => !(decide (d.dso_handle = 5))),
        (queue0.filter (fun d => decide (d.dso_handle = 5))).reverse))) :=
  ⟨by decide, by decide, cxa_finalize_null_and_exact mgr0 queue0 5 (by decide) (by decide)⟩

theorem foldl_fixed {α β : Type} (f : α → β → α) (init : α) :
    ∀ l : List β, (∀ x ∈ l, f init x = init) → l.foldl f init = init
  | [], _ => rfl
  | x :: rest, h => by
    rw [List.foldl_cons, h x (List.mem_cons_self _ _)]
    exact foldl_fixed f init rest (fun y hy => h y (List.mem_cons_of_mem _ hy))

/-- Claim C6: dropping an `ElfLibrary` handle without `RTLD_NODELETE` and
without `CUSTOM_NOT_REGISTER`, whose core's strong count equals the threshold
`2 + (deps present) + (RTLD_GLOBAL set)`, removes the record from `all` (and
from `global` when it is `GLOBAL`), increments `subs` by one per removed
library, checks every searchlist dependency after the self entry for the same
threshold condition (here, under the hypothesis that no dependency reaches
its own threshold, so only this library is removed), and afterwards runs
exactly the queued destructors whose `dso_handle` lies inside the removed
library's mapped range, in reverse registration order. -/
theorem drop_elf_library_destroys (denv : DropEnv) (self : ElfLibrary) (m : Manager)
    (queue : List Destructor)
    (hnd : self.flags.rtld_nodelete = false)
    (hnr : self.flags.custom_not_register = false)
    (hbase : self.inner.base ≠ 0)
    (hcount : denv.strong_count self.inner =
      2 + (if self.deps.isSome then 1 else 0) + (if self.flags.rtld_global then 1 else 0))
    (hdeps : ∀ dep ∈ (self.deps.getD []).drop 1,
      ∀ lib, imGet (imShiftRemove m.all self.inner.shortname) dep.shortname = some lib →
        lib.flags.rtld_nodelete = true ∨
        denv.strong_count dep ≠
          2 + (if lib.deps.isSome then 1 else 0) + (if lib.flags.rtld_global then 1 else 0)) :
    (drop_elf_library denv self m queue).2.2.2 = [self.inner] ∧
    imGet (drop_elf_library denv self m queue).1.all self.inner.shortname = none ∧
    (self.flags.rtld_global = true →
      imGet (drop_elf_library denv self m queue).1.global self.inner.shortname = none) ∧
    (drop_elf_library denv self m queue).1.subs = m.subs + 1 ∧
    (drop_elf_library denv self m queue).2.2.1 =
      (queue.filter (fun d => decide (self.inner.base ≤ d.dso_handle)
        && decide (d.dso_handle < self.inner.base + self.inner.mapped_len))).reverse ∧
    (drop_elf_library denv self m queue).2.1 =
      queue.filter (fun d => !(decide (self.inner.base ≤ d.dso_handle)
        && decide (d.dso_handle < self.inner.base + self.inner.mapped_len))) := by
  have hflags : ¬((self.flags.rtld_nodelete || self.flags.custom_not_register) = true) := by
    rw [hnd, hnr]
    simp
  -- the manager after the self record has left `all` (and `global` if GLOBAL)
  set m1 : Manager :=
    { m with all := imShiftRemove m.all self.inner.shortname, subs := m.subs + 1 } with hm1
  set m2 : Manager :=
    (if self.flags.rtld_global then
      { m1 with global := imShiftRemove m1.global self.inner.shortname }
    else m1) with hm2
  have hm2all : m2.all = imShiftRemove m.all self.inner.shortname := by
    rw [hm2]
    by_cases hg : self.flags.rtld_global = true <;> simp [hg, hm1]
  have hm2subs : m2.subs = m.subs + 1 := by
    rw [hm2]
    by_cases hg : self.flags.rtld_global = true <;> simp [hg, hm1]
  -- the dependency scan leaves everything in place
  have hfold : ((self.deps.getD []).drop 1).foldl (drop_dep_step denv) (m2, [self.inner])
      = (m2, [self.inner]) := by
    apply foldl_fixed
    intro dep hdep
    cases hget : imGet m2.all dep.shortname with
    | none => simp [drop_dep_step, hget]
    | some lib =>
      rcases hdeps dep hdep lib (hm2all ▸ hget) with hlib | hlib
      · simp [drop_dep_step, hget, hlib]
      · by_cases hnd2 : lib.flags.rtld_nodelete = true
        · simp [drop_dep_step, hget, hnd2]
        · simp only [drop_dep_step, hget, hnd2, Bool.false_eq_true, if_false]
          rw [if_neg hlib]
  -- the destructor drain for the single removed library
  have hfin := extract_matching_eq
    (destructor_matches self.inner.base
      (some (self.inner.base, self.inner.base + self.inner.mapped_len))) queue
  have hpred : destructor_matches self.inner.base
      (some (self.inner.base, self.inner.base + self.inner.mapped_len))
      = fun d => decide (self.inner.base ≤ d.dso_handle)
        && decide (d.dso_handle < self.inner.base + self.inner.mapped_len) := by
    funext d
    simp only [destructor_matches, if_neg hbase]
  have hrange : ¬((some (self.inner.base, self.inner.base + self.inner.mapped_len)
      : Option (Nat × Nat)).isNone = true ∧ self.inner.base ≠ 0) := by simp
  rw [hpred] at hfin
  have hres : drop_elf_library denv self m queue
      = (m2,
         queue.filter (fun d => !(decide (self.inner.base ≤ d.dso_handle)
           && decide (d.dso_handle < self.inner.base + self.inner.mapped_len))),
         (queue.filter (fun d => decide (self.inner.base ≤ d.dso_handle)
           && decide (d.dso_handle < self.inner.base + self.inner.mapped_len))).reverse,
         [self.inner]) := by
    simp only [drop_elf_library, if_neg hflags, if_pos hcount, ← hm1, ← hm2, hfold,
      List.foldl_cons, List.foldl_nil, finalize, if_neg hrange, hpred, hfin,
      List.nil_append]
  refine ⟨by rw [hres], ?_, ?_, ?_, by rw [hres], by rw [hres]⟩
  · rw [hres]
    show imGet m2.all self.inner.shortname = none
    rw [hm2all]
    exact imGet_imShiftRemove_self _ _
  · intro hg
    rw [hres]
    show imGet m2.global self.inner.shortname = none
    rw [hm2, if_pos hg]
    exact imGet_imShiftRemove_self _ _
  · rw [hres]
    exact hm2subs

/-- A concrete loaded object for the C6 witness. -/
def libx : LibInfo :=
  { name := "/t/libx.so", shortname := "libx.so", needed_libs := [],
    rpath := none, runpath := none, is_lazy := false, base := 4096, mapped_len := 4096 }

/-- A handle to `libx` whose searchlist is just itself. -/
def self6 : ElfLibrary := { inner := libx, flags := {}, deps := some [libx] }

/-- Strong-count oracle at the destruction threshold `2 + 1 + 0`. -/
def denv6 : DropEnv := { strong_count := fun _ => 3 }

/-- Registry holding only `libx`. -/
def m6 : Manager :=
  { all := [("libx.so", { inner := libx, flags := {}, deps := some [libx], state := ⟨255⟩ })],
    global := [], adds := 1, subs := 0 }

/-- Destructors: two inside the `libx` mapping, one outside. -/
def queue6 : List Destructor := [⟨4100, 0⟩, ⟨9000, 1⟩, ⟨4200, 2⟩]

theorem drop_elf_library_destroys_witness :
    (self6.flags.rtld_nodelete = false) ∧
    (self6.flags.custom_not_register = false) ∧
    (self6.inner.base ≠ 0) ∧
    (denv6.strong_count self6.inner =
      2 + (if self6.deps.isSome then 1 else 0) + (if self6.flags.rtld_global then 1 else 0)) ∧
    ((drop_elf_library denv6 self6 m6 queue6).2.2.2 = [self6.inner] ∧
     imGet (drop_elf_library denv6 self6 m6 queue6).1.all self6.inner.shortname = none ∧
     (self6.flags.rtld_global = true →
       imGet (drop_elf_library denv6 self6 m6 queue6).1.global self6.inner.shortname = none) ∧
     (drop_elf_library denv6 self6 m6 queue6).1.subs = m6.subs + 1 ∧
     (drop_elf_library denv6 self6 m6 queue6).2.2.1 =
       (queue6.filter (fun d => decide (self6.inner.base ≤ d.dso_handle)
         && decide (d.dso_handle < self6.inner.base + self6.inner.mapped_len))).reverse ∧
     (drop_elf_library denv6 self6 m6 queue6).2.1 =
       queue6.filter (fun d => !(decide (self6.inner.base ≤ d.dso_handle)
         && decide (d.dso_handle < self6.inner.base + self6.inner.mapped_len)))) :=
  ⟨rfl, rfl, by decide, by decide,
    drop_elf_library_destroys denv6 self6 m6 queue6 rfl rfl (by decide) (by decide)
      (by intro dep hdep; exact absurd hdep (by simp [self6]))⟩

/-- Root library of the C8 counterexample transaction: it still needs one
more library while 254 new libraries are already registered. -/
def rootd : LibInfo :=
  { name := "/t/rootd.so", shortname := "rootd.so", needed_libs := ["dx.so"],
    rpath := none, runpath := none, is_lazy := false, base := 0, mapped_len := 16 }

/-- The library whose registration would be the 255th of the transaction. -/
def dxlib : LibInfo :=
  { name := "/cache/dx.so", shortname := "dx.so", needed_libs := [],
    rpath := none, runpath := none, is_lazy := false, base := 0, mapped_len := 16 }

/-- A transaction state that has already loaded 254 new libraries. -/
def ctx8 : OpenCtx :=
  { new_libs := List.replicate 254 default, dep_libs := [rootd], flags := {},
    old_all_len := 0, old_global_len := 0 }

/-- Registry for the C8 counterexample: the root is registered as new
library 0 of the batch. -/
def m8 : Manager :=
  { all := [("rootd.so", { inner := rootd, flags := {}, deps := none, state := ⟨0⟩ })],
    global := [], adds := 1, subs := 0 }

/-- Environment for the C8 counterexample: `dx.so` resolves through the
cache and loads fine — the failure is the cap, not the lookup. -/
def env8 : Env where
  load_file := fun p => if p = "/cache/dx.so" then some dxlib else none
  ld_library_path := []
  ld_cache := fun n => if n = "dx.so" then some "/cache/dx.so" else none
  ld_bind_now := false
  reloc_ok := fun _ => true

/-- Claim C8 counterexample: with 254 new libraries already in the
transaction, loading one more makes `register_new` hit the
`assert!(idx < 254)` in `set_new_idx` — the outcome is a panic (process
abort after unwinding), not an error return, so the claim's "the dlopen call
returns an error" is false at this input. -/
theorem new_libs_cap_counterexample :
    (ctx8.new_libs.length = 254) ∧
    ((load_deps env8 2 ctx8 m8 0).1 = DlOutcome.panic) ∧
    ((load_deps env8 2 ctx8 m8 0).1.isErr = false) :=
  ⟨rfl, rfl, rfl⟩

/-- Claim C8 (amended): within one transaction the new-libs vector holds at
most 254 entries — `register_new` succeeds exactly while fewer than 254 new
libraries exist, storing the batch index `new_libs.len()` as the state —
and the attempt to add the 255th entry (index 254) fails the
`assert!(idx < 254)` inside `set_new_idx`: an assertion panic (abort after
the rollback drop runs), not an error return. -/
theorem register_new_cap (ctx : OpenCtx) (lib : LibInfo) (m : Manager)
    (hlen : ctx.new_libs.length ≤ 254) :
    (ctx.new_libs.length < 254 →
      ∃ ctx2 m2, register_new ctx lib m = some (ctx2, m2) ∧
        ctx2.new_libs.length = ctx.new_libs.length + 1 ∧
        ctx2.new_libs = ctx.new_libs ++ [lib] ∧
        m2 = register lib ctx.flags m ⟨ctx.new_libs.length⟩) ∧
    (ctx.new_libs.length = 254 → register_new ctx lib m = none) := by
  constructor
  · intro hlt
    have hmod : ctx.new_libs.length % 256 = ctx.new_libs.length :=
      Nat.mod_eq_of_lt (by omega)
    have hst : DylibState.set_new_idx (ctx.new_libs.length % 256)
        = some ⟨ctx.new_libs.length⟩ := by
      rw [hmod]
      unfold DylibState.set_new_idx
      rw [if_pos hlt]
    refine ⟨{ ctx with dep_libs := ctx.dep_libs ++ [lib], new_libs := ctx.new_libs ++ [lib] },
      register lib ctx.flags m ⟨ctx.new_libs.length⟩, ?_, by simp, rfl, rfl⟩
    simp only [register_new, hst]
  · intro heq
    have hst : DylibState.set_new_idx (ctx.new_libs.length % 256) = none := by
      rw [heq]
      rfl
    simp only [register_new, hst]

/-- An empty transaction state for the C8 witness. -/
def ctxW : OpenCtx :=
  { new_libs := [], dep_libs := [], flags := {}, old_all_len := 0, old_global_len := 0 }

theorem register_new_cap_witness :
    (ctxW.new_libs.length ≤ 254) ∧
    ((ctxW.new_libs.length < 254 →
      ∃ ctx2 m2, register_new ctxW dxlib mgr0 = some (ctx2, m2) ∧
        ctx2.new_libs.length = ctxW.new_libs.length + 1 ∧
        ctx2.new_libs = ctxW.new_libs ++ [dxlib] ∧
        m2 = register dxlib ctxW.flags mgr0 ⟨ctxW.new_libs.length⟩) ∧
    (ctxW.new_libs.length = 254 → register_new ctxW dxlib mgr0 = none)) :=
  ⟨by decide, register_new_cap ctxW dxlib mgr0 (by decide)⟩

/-- `libA`, registered with `RTLD_NODELETE` before the C3 transaction. -/
def libA3 : LibInfo :=
  { name := "/t/libA.so", shortname := "libA.so", needed_libs := [],
    rpath := none, runpath := none, is_lazy := false, base := 0, mapped_len := 16 }

/-- `libB`, freshly loaded by the C3 transaction; it needs `libA.so`. -/
def libB3 : LibInfo :=
  { name := "/c/libB.so", shortname := "libB.so", needed_libs := ["libA.so"],
    rpath := none, runpath := none, is_lazy := false, base := 16, mapped_len := 16 }

/-- Registry before the C3 transaction: `libA.so` relocated, flags
`RTLD_NODELETE`, not global. -/
def m3 : Manager :=
  { all := [("libA.so",
      { inner := libA3, flags := { rtld_nodelete := true }, deps := some [libA3],
        state := ⟨255⟩ })],
    global := [], adds := 1, subs := 0 }

/-- Environment for the C3 transaction: `libB.so` resolves via the cache and
loads; relocation succeeds. -/
def env3 : Env where
  load_file := fun p => if p = "/c/libB.so" then some libB3 else none
  ld_library_path := []
  ld_cache := fun n => if n = "libB.so" then some "/c/libB.so" else none
  ld_bind_now := false
  reloc_ok := fun _ => true

/-- Claim C3 failing run: `libA.so` holds `RTLD_NODELETE` before the call;
`dlopen("libB.so", RTLD_GLOBAL)` succeeds, and because `libB` needs
`libA.so`, the dependency-linking path of `load_deps` promotes `libA.so` to
`GLOBAL` by *replacing* its flags with the transaction's flags
(`set_flags(self.flags)`), clearing the previously set `RTLD_NODELETE` —
refuting the claim that `NODELETE`, once contained, is never removed by a
subsequent `dlopen`. -/
theorem load_deps_clears_nodelete :
    ((imGet m3.all "libA.so").map (fun en => en.flags.rtld_nodelete) = some true) ∧
    ((dlopen_impl env3 10 "libB.so" { rtld_global := true } m3).1.isOk = true) ∧
    ((imGet (dlopen_impl env3 10 "libB.so" { rtld_global := true } m3).2.all "libA.so").map
      (fun en => en.flags.rtld_nodelete) = some false) ∧
    ((imGet (dlopen_impl env3 10 "libB.so" { rtld_global := true } m3).2.all "libA.so").map
      (fun en => en.flags.rtld_global) = some true) :=
  ⟨rfl, rfl, rfl, rfl⟩

theorem register_grows (lib : LibInfo) (f : OpenFlags) (m : Manager) (st : DylibState) :
    m.all.length ≤ (register lib f m st).all.length ∧
    m.global.length ≤ (register lib f m st).global.length := by
  simp only [register]
  split_ifs with h1 h2 h3 h4
  · exact ⟨le_refl _, le_refl _⟩
  all_goals constructor
  all_goals first
    | exact length_imInsert _ _ _
    | exact le_refl _

theorem register_new_grows (ctx : OpenCtx) (lib : LibInfo) (m : Manager)
    (ctx2 : OpenCtx) (m2 : Manager) (h : register_new ctx lib m = some (ctx2, m2)) :
    m.all.length ≤ m2.all.length ∧ m.global.length ≤ m2.global.length ∧
    ctx2.old_all_len = ctx.old_all_len ∧ ctx2.old_global_len = ctx.old_global_len := by
  simp only [register_new] at h
  cases hst : DylibState.set_new_idx (ctx.new_libs.length % 256) with
  | none =>
    rw [hst] at h
    exact absurd h (by simp)
  | some st =>
    rw [hst] at h
    simp only [Option.some.injEq, Prod.mk.injEq] at h
    obtain ⟨h1, h2⟩ := h
    subst h1
    subst h2
    exact ⟨(register_grows _ _ _ _).1, (register_grows _ _ _ _).2, rfl, rfl⟩

theorem link_existing_dep_grows (ctx : OpenCtx) (m : Manager) (lib_name : String)
    (entry : GlobalDylib) :
    m.all.length ≤ (link_existing_dep ctx m lib_name entry).2.all.length ∧
    m.global.length ≤ (link_existing_dep ctx m lib_name entry).2.global.length ∧
    (link_existing_dep ctx m lib_name entry).1.old_all_len = ctx.old_all_len ∧
    (link_existing_dep ctx m lib_name entry).1.old_global_len = ctx.old_global_len := by
  simp only [link_existing_dep]
  split_ifs with h1 h2
  · exact ⟨le_refl _, le_refl _, rfl, rfl⟩
  · refine ⟨?_, ?_, rfl, rfl⟩
    · simp [length_imModify]
    · simpa using length_imInsert m.global lib_name entry.inner
  · exact ⟨le_refl _, le_refl _, rfl, rfl⟩

theorem process_needed_grows (env : Env) (rpath runpath : List String) :
    ∀ (names : List String) (ctx : OpenCtx) (m : Manager),
      m.all.length ≤ (process_needed env rpath runpath ctx m names).2.all.length ∧
      m.global.length ≤ (process_needed env rpath runpath ctx m names).2.global.length ∧
      (∀ ctx2, (process_needed env rpath runpath ctx m names).1 = .ok ctx2 →
        ctx2.old_all_len = ctx.old_all_len ∧ ctx2.old_global_len = ctx.old_global_len)
  | [], ctx, m => by
    refine ⟨le_refl _, le_refl _, ?_⟩
    intro ctx2 h
    simp only [process_needed, DlOutcome.ok.injEq] at h
    subst h
    exact ⟨rfl, rfl⟩
  | lib_name :: rest, ctx, m => by
    cases hget : imGet m.all lib_name with
    | some entry =>
      cases hle : link_existing_dep ctx m lib_name entry with
      | mk ctxa ma =>
        have hlg := link_existing_dep_grows ctx m lib_name entry
        rw [hle] at hlg
        have ih := process_needed_grows env rpath runpath rest ctxa ma
        simp only [process_needed, hget, hle]
        refine ⟨le_trans hlg.1 ih.1, le_trans hlg.2.1 ih.2.1, ?_⟩
        intro ctx2 h
        obtain ⟨ho1, ho2⟩ := ih.2.2 ctx2 h
        exact ⟨ho1.trans hlg.2.2.1, ho2.trans hlg.2.2.2⟩
    | none =>
      cases hfind : find_library env rpath runpath lib_name
          (fun p => (env.load_file p).isSome) with
      | error e =>
        simp only [process_needed, hget, hfind]
        exact ⟨le_refl _, le_refl _, by intro ctx2 h; exact absurd h (by simp)⟩
      | ok p =>
        cases hload : env.load_file p with
        | none =>
          simp only [process_needed, hget, hfind, hload]
          exact ⟨le_refl _, le_refl _, by intro ctx2 h; exact absurd h (by simp)⟩
        | some lib =>
          cases hreg : register_new ctx lib m with
          | none =>
            simp only [process_needed, hget, hfind, hload, hreg]
            exact ⟨le_refl _, le_refl _, by intro ctx2 h; exact absurd h (by simp)⟩
          | some pr =>
            obtain ⟨ctxa, ma⟩ := pr
            have hrg := register_new_grows ctx lib m ctxa ma hreg
            have ih := process_needed_grows env rpath runpath rest ctxa ma
            simp only [process_needed, hget, hfind, hload, hreg]
            refine ⟨le_trans hrg.1 ih.1, le_trans hrg.2.1 ih.2.1, ?_⟩
            intro ctx2 h
            obtain ⟨ho1, ho2⟩ := ih.2.2 ctx2 h
            exact ⟨ho1.trans hrg.2.2.1, ho2.trans hrg.2.2.2⟩

theorem load_deps_grows (env : Env) :
    ∀ (fuel : Nat) (ctx : OpenCtx) (m : Manager) (cur_pos : Nat),
      m.all.length ≤ (load_deps env fuel ctx m cur_pos).2.all.length ∧
      m.global.length ≤ (load_deps env fuel ctx m cur_pos).2.global.length ∧
      (∀ ctx2, (load_deps env fuel ctx m cur_pos).1 = .ok ctx2 →
        ctx2.old_all_len = ctx.old_all_len ∧ ctx2.old_global_len = ctx.old_global_len)
  | 0, ctx, m, cur_pos => by
    exact ⟨le_refl _, le_refl _, by intro ctx2 h; exact absurd h (by simp [load_deps])⟩
  | fuel + 1, ctx, m, cur_pos => by
    by_cases hpos : cur_pos < ctx.dep_libs.length
    · simp only [load_deps]
      rw [dif_pos hpos]
      cases hpe : imGet m.all (ctx.dep_libs.get ⟨cur_pos, hpos⟩).shortname with
      | none =>
        simp only [hpe]
        exact ⟨le_refl _, le_refl _, by intro ctx2 h; exact absurd h (by simp)⟩
      | some pe =>
        simp only [hpe]
        cases hni : pe.state.get_new_idx with
        | none =>
          simp only [hni]
          cases hpn : process_needed env [] [] ctx m
              (ctx.dep_libs.get ⟨cur_pos, hpos⟩).needed_libs with
          | mk out m2 =>
            have hpg := process_needed_grows env [] []
              (ctx.dep_libs.get ⟨cur_pos, hpos⟩).needed_libs ctx m
            rw [hpn] at hpg
            cases out with
            | ok ctxa =>
              have ih := load_deps_grows env fuel ctxa m2 (cur_pos + 1)
              have hold := hpg.2.2 ctxa rfl
              simp only [hpn]
              refine ⟨le_trans hpg.1 ih.1, le_trans hpg.2.1 ih.2.1, ?_⟩
              intro ctx2 h
              obtain ⟨ho1, ho2⟩ := ih.2.2 ctx2 h
              exact ⟨ho1.trans hold.1, ho2.trans hold.2⟩
            | err e =>
              simp only [hpn]
              exact ⟨hpg.1, hpg.2.1, by intro ctx2 h; exact absurd h (by simp)⟩
            | panic =>
              simp only [hpn]
              exact ⟨hpg.1, hpg.2.1, by intro ctx2 h; exact absurd h (by simp)⟩
            | spin =>
              simp only [hpn]
              exact ⟨hpg.1, hpg.2.1, by intro ctx2 h; exact absurd h (by simp)⟩
            | fuelOut =>
              simp only [hpn]
              exact ⟨hpg.1, hpg.2.1, by intro ctx2 h; exact absurd h (by simp)⟩
        | some idx =>
          cases hpl : ctx.new_libs.get? idx with
          | none =>
            simp only [hni, hpl]
            exact ⟨le_refl _, le_refl _, by intro ctx2 h; exact absurd h (by simp)⟩
          | some plib =>
            simp only [hni, hpl]
            cases hpn : process_needed env
                ((plib.rpath.map (fun r => fixup_rpath plib.name r)).getD [])
                ((plib.runpath.map (fun r => fixup_rpath plib.name r)).getD [])
                ctx m (ctx.dep_libs.get ⟨cur_pos, hpos⟩).needed_libs with
            | mk out m2 =>
              have hpg := process_needed_grows env
                ((plib.rpath.map (fun r => fixup_rpath plib.name r)).getD [])
                ((plib.runpath.map (fun r => fixup_rpath plib.name r)).getD [])
                (ctx.dep_libs.get ⟨cur_pos, hpos⟩).needed_libs ctx m
              rw [hpn] at hpg
              cases out with
              | ok ctxa =>
                have ih := load_deps_grows env fuel ctxa m2 (cur_pos + 1)
                have hold := hpg.2.2 ctxa rfl
                simp only [hpn]
                refine ⟨le_trans hpg.1 ih.1, le_trans hpg.2.1 ih.2.1, ?_⟩
                intro ctx2 h
                obtain ⟨ho1, ho2⟩ := ih.2.2 ctx2 h
                exact ⟨ho1.trans hold.1, ho2.trans hold.2⟩
              | err e =>
                simp only [hpn]
                exact ⟨hpg.1, hpg.2.1, by intro ctx2 h; exact absurd h (by simp)⟩
              | panic =>
                simp only [hpn]
                exact ⟨hpg.1, hpg.2.1, by intro ctx2 h; exact absurd h (by simp)⟩
              | spin =>
                simp only [hpn]
                exact ⟨hpg.1, hpg.2.1, by intro ctx2 h; exact absurd h (by simp)⟩
              | fuelOut =>
                simp only [hpn]
                exact ⟨hpg.1, hpg.2.1, by intro ctx2 h; exact absurd h (by simp)⟩
    · simp only [load_deps]
      rw [dif_neg hpos]
      refine ⟨le_refl _, le_refl _, ?_⟩
      intro ctx2 h
      simp only [DlOutcome.ok.injEq] at h
      subst h
      exact ⟨rfl, rfl⟩

theorem update_dependency_scopes_lengths (fuel : Nat) :
    ∀ (roots : List String) (m m2 : Manager),
      update_dependency_scopes fuel m roots = some m2 →
      m2.all.length = m.all.length ∧ m2.global = m.global ∧ m2.adds = m.adds
  | [], m, m2 => by
    intro h
    simp only [update_dependency_scopes, Option.some.injEq] at h
    subst h
    exact ⟨rfl, rfl, rfl⟩
  | root :: rest, m, m2 => by
    intro h
    simp only [update_dependency_scopes] at h
    cases hb : bfs_loop m fuel [] [root] [root] with
    | none => rw [hb] at h; exact absurd h (by simp)
    | some scope =>
      rw [hb] at h
      have ih := update_dependency_scopes_lengths fuel rest _ m2 h
      refine ⟨?_, ih.2.1, ih.2.2⟩
      rw [ih.1]
      simp [length_imModify]

theorem scan_names_lengths (m : Manager) :
    ∀ (names : List String) (idx : Nat) (m2 : Manager),
      scan_names m names = some (some (idx, m2)) →
      m2.all.length = m.all.length ∧ m2.global = m.global
  | [], idx, m2 => by
    intro h
    exact absurd h (by simp [scan_names])
  | n :: rest, idx, m2 => by
    intro h
    simp only [scan_names] at h
    cases hget : imGet m.all n with
    | none =>
      rw [hget] at h
      exact absurd h (by simp)
    | some e =>
      simp only [hget] at h
      cases hni : e.state.get_new_idx with
      | none =>
        simp only [hni] at h
        exact scan_names_lengths m rest idx m2 h
      | some i =>
        simp only [hni, Option.some.injEq, Prod.mk.injEq] at h
        obtain ⟨_, h2⟩ := h
        subst h2
        exact ⟨by simp [length_imModify], rfl⟩

theorem compute_order_loop_lengths (new_libs : List LibInfo) :
    ∀ (fuel : Nat) (m : Manager) (stack : List OrderItem) (order : List Nat),
      (compute_order_loop new_libs fuel m stack order).2.all.length = m.all.length ∧
      (compute_order_loop new_libs fuel m stack order).2.global = m.global
  | 0, m, stack, order => ⟨rfl, rfl⟩
  | fuel + 1, m, [], order => ⟨rfl, rfl⟩
  | fuel + 1, m, item :: stack, order => by
    cases hlib : new_libs.get? item.idx with
    | none =>
      simp only [compute_order_loop, hlib]
      exact ⟨trivial, trivial⟩
    | some lib =>
      cases hscan : scan_names m (lib.needed_libs.drop item.next) with
      | none =>
        simp only [compute_order_loop, hlib, hscan]
        exact ⟨trivial, trivial⟩
      | some r =>
        cases r with
        | none =>
          simp only [compute_order_loop, hlib, hscan]
          exact compute_order_loop_lengths new_libs fuel m stack (order ++ [item.idx])
        | some pr =>
          obtain ⟨idx, m2⟩ := pr
          have hs := scan_names_lengths m (lib.needed_libs.drop item.next) idx m2 hscan
          have ih := compute_order_loop_lengths new_libs fuel m2
            (⟨idx, 0⟩ :: ⟨item.idx, item.next + 1⟩ :: stack) order
          simp only [compute_order_loop, hlib, hscan]
          exact ⟨ih.1.trans hs.1, ih.2.trans hs.2⟩

theorem compute_order_lengths (fuel : Nat) (ctx : OpenCtx) (m : Manager) :
    (compute_order fuel ctx m).2.all.length = m.all.length ∧
    (compute_order fuel ctx m).2.global = m.global := by
  unfold compute_order
  split_ifs with h
  · exact ⟨rfl, rfl⟩
  · exact compute_order_loop_lengths ctx.new_libs fuel m [⟨0, 0⟩] []

theorem set_states_fold_lengths (f : GlobalDylib → GlobalDylib) :
    ∀ (libs : List LibInfo) (m : Manager),
      (libs.foldl (fun m lib =>
        { m with all := imModify m.all lib.shortname f }) m).all.length = m.all.length ∧
      (libs.foldl (fun m lib =>
        { m with all := imModify m.all lib.shortname f }) m).global = m.global
  | [], m => ⟨rfl, rfl⟩
  | lib :: rest, m => by
    have ih := set_states_fold_lengths f rest { m with all := imModify m.all lib.shortname f }
    simp only [List.foldl_cons]
    refine ⟨ih.1.trans ?_, ih.2⟩
    exact length_imModify _ _ _

theorem set_relocating_all_lengths (ctx : OpenCtx) (m : Manager) :
    (set_relocating_all ctx m).all.length = m.all.length ∧
    (set_relocating_all ctx m).global = m.global := by
  unfold set_relocating_all
  exact set_states_fold_lengths _ ctx.dep_libs m

theorem set_relocated_all_lengths (ctx : OpenCtx) (m : Manager) :
    (set_relocated_all ctx m).all.length = m.all.length ∧
    (set_relocated_all ctx m).global = m.global := by
  unfold set_relocated_all
  exact set_states_fold_lengths _ ctx.dep_libs m

theorem relocate_all_lengths (env : Env) (ctx : OpenCtx) (order : List Nat) (m : Manager) :
    (relocate_all env ctx order m).2.all.length = m.all.length ∧
    (relocate_all env ctx order m).2.global = m.global := by
  unfold relocate_all
  cases hf : order.find?
      (fun idx => !(env.reloc_ok ((ctx.new_libs.getD idx default).name))) with
  | some idx =>
    simp only [hf]
    exact set_relocating_all_lengths ctx m
  | none =>
    simp only [hf]
    have h1 := set_relocating_all_lengths ctx m
    have h2 := set_relocated_all_lengths ctx (set_relocating_all ctx m)
    exact ⟨h2.1.trans h1.1, h2.2.trans h1.2⟩

theorem rollback_lengths (ctx : OpenCtx) (m : Manager)
    (ha : ctx.old_all_len ≤ m.all.length) (hg : ctx.old_global_len ≤ m.global.length) :
    (rollback_ctx ctx m).all.length = ctx.old_all_len ∧
    (rollback_ctx ctx m).global.length = ctx.old_global_len := by
  unfold rollback_ctx
  constructor <;> simp only [List.length_take] <;> omega

theorem dlopen_phases_rollback (env : Env) (fuel : Nat) (ctx1 : OpenCtx) (m1 : Manager)
    (ha : ctx1.old_all_len ≤ m1.all.length) (hg : ctx1.old_global_len ≤ m1.global.length)
    (e : DlError) (herr : (dlopen_phases env fuel ctx1 m1).1 = .err e) :
    (dlopen_phases env fuel ctx1 m1).2.all.length = ctx1.old_all_len ∧
    (dlopen_phases env fuel ctx1 m1).2.global.length = ctx1.old_global_len := by
  unfold dlopen_phases at herr ⊢
  cases hld : load_deps env fuel ctx1 m1 0 with
  | mk out m2 =>
    have hlg := load_deps_grows env fuel ctx1 m1 0
    rw [hld] at hlg
    cases out with
    | ok ctx2 =>
      simp only [hld] at herr ⊢
      obtain ⟨ho1, ho2⟩ := hlg.2.2 ctx2 rfl
      have ha2 : ctx2.old_all_len ≤ m2.all.length := by
        rw [ho1]
        exact le_trans ha hlg.1
      have hg2 : ctx2.old_global_len ≤ m2.global.length := by
        rw [ho2]
        exact le_trans hg hlg.2.1
      cases hupd : update_dependency_scopes fuel m2 (new_lib_names ctx2 m2) with
      | none =>
        simp only [hupd] at herr
        exact absurd herr (by simp)
      | some m3 =>
        have hul := update_dependency_scopes_lengths fuel _ m2 m3 hupd
        simp only [hupd] at herr ⊢
        cases hco : compute_order fuel ctx2 m3 with
        | mk oout m4 =>
          have hcl := compute_order_lengths fuel ctx2 m3
          rw [hco] at hcl
          cases oout with
          | ok order =>
            simp only [hco] at herr ⊢
            cases hrel : relocate_all env ctx2 order m4 with
            | mk rout m5 =>
              have hrl := relocate_all_lengths env ctx2 order m4
              rw [hrel] at hrl
              cases rout with
              | ok u =>
                simp only [hrel] at herr
                exact absurd herr (by simp)
              | err e2 =>
                simp only [hrel] at herr ⊢
                have hm5a : ctx2.old_all_len ≤ m5.all.length := by
                  rw [hrl.1, hcl.1, hul.1]
                  exact ha2
                have hm5g : ctx2.old_global_len ≤ m5.global.length := by
                  rw [hrl.2, hcl.2, hul.2.1]
                  exact hg2
                have hr := rollback_lengths ctx2 m5 hm5a hm5g
                exact ⟨hr.1.trans ho1, hr.2.trans ho2⟩
              | panic =>
                simp only [hrel] at herr
                exact absurd herr (by simp [DlOutcome.castFail])
              | spin =>
                simp only [hrel] at herr
                exact absurd herr (by simp [DlOutcome.castFail])
              | fuelOut =>
                simp only [hrel] at herr
                exact absurd herr (by simp [DlOutcome.castFail])
          | err e2 =>
            simp only [hco] at herr ⊢
            have hm4a : ctx2.old_all_len ≤ m4.all.length := by
              rw [hcl.1, hul.1]
              exact ha2
            have hm4g : ctx2.old_global_len ≤ m4.global.length := by
              rw [hcl.2, hul.2.1]
              exact hg2
            have hr := rollback_lengths ctx2 m4 hm4a hm4g
            exact ⟨hr.1.trans ho1, hr.2.trans ho2⟩
          | panic =>
            simp only [hco] at herr
            exact absurd herr (by simp [DlOutcome.castFail])
          | spin =>
            simp only [hco] at herr
            exact absurd herr (by simp [DlOutcome.castFail])
          | fuelOut =>
            simp only [hco] at herr
            exact absurd herr (by simp [DlOutcome.castFail])
    | err e2 =>
      simp only [hld] at herr ⊢
      have hr := rollback_lengths ctx1 m2 (le_trans ha hlg.1) (le_trans hg hlg.2.1)
      exact ⟨hr.1, hr.2⟩
    | panic =>
      simp only [hld] at herr
      exact absurd herr (by simp [DlOutcome.castFail])
    | spin =>
      simp only [hld] at herr
      exact absurd herr (by simp [DlOutcome.castFail])
    | fuelOut =>
      simp only [hld] at herr
      exact absurd herr (by simp [DlOutcome.castFail])

theorem dlopen_body_rollback (env : Env) (fuel : Nat) (path : String) (flags : OpenFlags)
    (m0 : Manager) (e : DlError)
    (herr : (dlopen_body env fuel path flags m0).1 = .err e) :
    (dlopen_body env fuel path flags m0).2.all.length = m0.all.length ∧
    (dlopen_body env fuel path flags m0).2.global.length = m0.global.length := by
  unfold dlopen_body at herr ⊢
  cases hte : try_existing path flags m0 with
  | spin =>
    simp only [hte] at herr
    exact absurd herr (by simp)
  | found lib m =>
    simp only [hte] at herr
    exact absurd herr (by simp)
  | not_found =>
    simp only [hte] at herr ⊢
    by_cases hnl : flags.rtld_noload = true
    · rw [if_pos hnl] at herr ⊢
      have hr := rollback_lengths (init_ctx flags m0) m0 (le_of_eq (by rfl)) (le_of_eq (by rfl))
      exact ⟨hr.1.trans (by rfl), hr.2.trans (by rfl)⟩
    · rw [if_neg hnl] at herr ⊢
      cases hro : load_root env path with
      | ok rootl =>
        simp only [hro] at herr ⊢
        cases hrn : register_new (init_ctx flags m0) rootl m0 with
        | none =>
          simp only [hrn] at herr
          exact absurd herr (by simp)
        | some pr =>
          obtain ⟨ctx1, m1⟩ := pr
          simp only [hrn] at herr ⊢
          have hrg := register_new_grows _ _ _ _ _ hrn
          have h1 : ctx1.old_all_len ≤ m1.all.length := by
            rw [hrg.2.2.1]
            calc (init_ctx flags m0).old_all_len = m0.all.length := rfl
              _ ≤ m1.all.length := hrg.1
          have h2 : ctx1.old_global_len ≤ m1.global.length := by
            rw [hrg.2.2.2]
            calc (init_ctx flags m0).old_global_len = m0.global.length := rfl
              _ ≤ m1.global.length := hrg.2.1
          have hp := dlopen_phases_rollback env fuel ctx1 m1 h1 h2 e herr
          exact ⟨hp.1.trans (hrg.2.2.1.trans (by rfl)),
                 hp.2.trans (hrg.2.2.2.trans (by rfl))⟩
      | err e2 =>
        simp only [hro] at herr ⊢
        have hr := rollback_lengths (init_ctx flags m0) m0 (le_of_eq (by rfl)) (le_of_eq (by rfl))
        exact ⟨hr.1.trans (by rfl), hr.2.trans (by rfl)⟩
      | panic =>
        simp only [hro] at herr
        exact absurd herr (by simp [DlOutcome.castFail])
      | spin =>
        simp only [hro] at herr
        exact absurd herr (by simp [DlOutcome.castFail])
      | fuelOut =>
        simp only [hro] at herr
        exact absurd herr (by simp [DlOutcome.castFail])

/-- Claim C1: rollback atomicity of a `dlopen` transaction — whenever
`dlopen_impl` returns an error (dependency not found, loader failure, or
relocation failure), the registry is restored before the call returns: the
lengths of the `all` map and the `global` map equal the values they had when
the transaction took its checkpoint (the checkpoint of `OpenContext::new` is
replayed by truncation in `OpenContext::drop` while `committed` is false). -/
theorem dlopen_rollback_atomic (env : Env) (fuel : Nat) (path : String) (flags : OpenFlags)
    (m0 : Manager) (e : DlError)
    (herr : (dlopen_impl env fuel path flags m0).1 = .err e) :
    (dlopen_impl env fuel path flags m0).2.all.length = m0.all.length ∧
    (dlopen_impl env fuel path flags m0).2.global.length = m0.global.length := by
  unfold dlopen_impl at herr ⊢
  exact dlopen_body_rollback env fuel path _ m0 e herr

theorem dlopen_rollback_atomic_witness :
    ((dlopen_impl env0 5 "libfoo.so" {} m3).1
      = .err (.find_lib ("can not find file: " ++ "libfoo.so"))) ∧
    ((dlopen_impl env0 5 "libfoo.so" {} m3).2.all.length = m3.all.length ∧
     (dlopen_impl env0 5 "libfoo.so" {} m3).2.global.length = m3.global.length) :=
  ⟨rfl, dlopen_rollback_atomic env0 5 "libfoo.so" {} m3 _ rfl⟩

theorem get_lib_flags (entry : GlobalDylib) : (get_lib entry).flags = entry.flags := rfl

theorem get_lib_inner (entry : GlobalDylib) : (get_lib entry).inner = entry.inner := rfl

theorem get_lib_deps (entry : GlobalDylib) : (get_lib entry).deps = entry.deps := rfl

theorem try_existing_relocated (path : String) (F : OpenFlags) (m : Manager)
    (entry : GlobalDylib)
    (hget : imGet m.all (shortname_of path) = some entry)
    (hrel : entry.state.is_relocated = true) :
    (((F.rtld_global && !entry.flags.rtld_global)
        || (F.rtld_nodelete && !entry.flags.rtld_nodelete)) = false →
      try_existing path F m = .found (get_lib entry) m) ∧
    (((F.rtld_global && !entry.flags.rtld_global)
        || (F.rtld_nodelete && !entry.flags.rtld_nodelete)) = true →
      F.rtld_global = true →
      try_existing path F m = .found
        { get_lib entry with flags := entry.flags.orF (F.andF gnMask) }
        { m with
          all := imModify m.all (shortname_of path)
            (fun e => { e with flags := e.flags.orF (F.andF gnMask) }),
          global := imInsert m.global (shortname_of path) entry.inner }) ∧
    (((F.rtld_global && !entry.flags.rtld_global)
        || (F.rtld_nodelete && !entry.flags.rtld_nodelete)) = true →
      F.rtld_global = false →
      try_existing path F m = .found
        { get_lib entry with flags := entry.flags.orF (F.andF gnMask) }
        { m with
          all := imModify m.all (shortname_of path)
            (fun e => { e with flags := e.flags.orF (F.andF gnMask) }) }) := by
  have hmodget : imGet (imModify m.all (shortname_of path)
      (fun e => { e with flags := e.flags.orF (F.andF gnMask) })) (shortname_of path)
      = some { entry with flags := entry.flags.orF (F.andF gnMask) } := by
    rw [imGet_imModify_self, hget]
    rfl
  refine ⟨?_, ?_, ?_⟩
  · intro hpromo
    simp only [try_existing, hget, get_lib_flags]
    rw [if_pos hrel, if_neg (by rw [hpromo]; exact Bool.false_ne_true)]
  · intro hpromo hg
    simp only [try_existing, hget, get_lib_flags]
    rw [if_pos hrel, if_pos hpromo, if_pos hg]
    simp only [hmodget]
  · intro hpromo hg
    simp only [try_existing, hget, get_lib_flags]
    rw [if_pos hrel, if_pos hpromo, if_neg (by rw [hg]; exact Bool.false_ne_true)]

/-- Claim C2: dedup idempotence — when a library with key `N` is registered
with state `Relocated`, `dlopen(N, F)` returns (via `try_existing`) a handle
to that same record without loading anything: the length of `all` and the
`adds` counter are unchanged, and `global` is unchanged except that it may
gain `N` itself (by an in-order insert of this record) when `F` requests
`RTLD_GLOBAL`. -/
theorem dlopen_dedup_idempotent (env : Env) (fuel : Nat) (N : String) (F : OpenFlags)
    (m0 : Manager) (entry : GlobalDylib)
    (hget : imGet m0.all (shortname_of N) = some entry)
    (hrel : entry.state.is_relocated = true) :
    ∃ lib : ElfLibrary,
      (dlopen_impl env fuel N F m0).1 = .ok lib ∧
      lib.inner = entry.inner ∧
      lib.deps = entry.deps ∧
      (dlopen_impl env fuel N F m0).2.all.length = m0.all.length ∧
      (dlopen_impl env fuel N F m0).2.adds = m0.adds ∧
      ((dlopen_impl env fuel N F m0).2.global = m0.global ∨
        (F.rtld_global = true ∧
         (dlopen_impl env fuel N F m0).2.global
           = imInsert m0.global (shortname_of N) entry.inner)) := by
  unfold dlopen_impl dlopen_body
  set F2 := (if env.ld_bind_now then { F with rtld_now := true } else F) with hF2
  have hFg : F2.rtld_global = F.rtld_global := by
    rw [hF2]
    by_cases hb : env.ld_bind_now = true <;> simp [hb]
  have hFn : F2.rtld_nodelete = F.rtld_nodelete := by
    rw [hF2]
    by_cases hb : env.ld_bind_now = true <;> simp [hb]
  have hchar := try_existing_relocated N F2 m0 entry hget hrel
  by_cases hpromo : ((F2.rtld_global && !entry.flags.rtld_global)
      || (F2.rtld_nodelete && !entry.flags.rtld_nodelete)) = true
  · by_cases hg : F2.rtld_global = true
    · have hte := hchar.2.1 hpromo hg
      rw [hte]
      refine ⟨_, rfl, rfl, rfl, ?_, rfl, Or.inr ⟨hFg ▸ hg, rfl⟩⟩
      simp [length_imModify]
    · have hte := hchar.2.2 hpromo (Bool.eq_false_iff.mpr hg)
      rw [hte]
      refine ⟨_, rfl, rfl, rfl, ?_, rfl, Or.inl rfl⟩
      simp [length_imModify]
  · have hte := hchar.1 (Bool.eq_false_iff.mpr hpromo)
    rw [hte]
    exact ⟨get_lib entry, rfl, rfl, rfl, rfl, rfl, Or.inl rfl⟩

/-- The registry entry for `libA.so` in `m3`, spelled out for the C2
witness. -/
def entryA3 : GlobalDylib :=
  { inner := libA3, flags := { rtld_nodelete := true }, deps := some [libA3],
    state := ⟨255⟩ }

theorem dlopen_dedup_idempotent_witness :
    (imGet m3.all (shortname_of "libA.so") = some entryA3) ∧
    (entryA3.state.is_relocated = true) ∧
    (∃ lib : ElfLibrary,
      (dlopen_impl env0 5 "libA.so" { rtld_global := true } m3).1 = .ok lib ∧
      lib.inner = entryA3.inner ∧
      lib.deps = entryA3.deps ∧
      (dlopen_impl env0 5 "libA.so" { rtld_global := true } m3).2.all.length
        = m3.all.length ∧
      (dlopen_impl env0 5 "libA.so" { rtld_global := true } m3).2.adds = m3.adds ∧
      ((dlopen_impl env0 5 "libA.so" { rtld_global := true } m3).2.global = m3.global ∨
        (({ rtld_global := true } : OpenFlags).rtld_global = true ∧
         (dlopen_impl env0 5 "libA.so" { rtld_global := true } m3).2.global
           = imInsert m3.global (shortname_of "libA.so") entryA3.inner))) :=
  ⟨rfl, rfl,
    dlopen_dedup_idempotent env0 5 "libA.so" { rtld_global := true } m3 entryA3 rfl rfl⟩
